import Mathlib

/-!
Verification of the chart-app timeline core: a shallow embedding of the
date utilities (src/utils/dateUtils.ts), the task-store validation
(src/features/tasks/hooks/useTaskValidation.ts, useTasks.ts), the Gantt
layout engine (src/features/gantt/hooks/useGanttCalculations.ts and its
revisions) and the quarter navigation handlers, together with theorems
settling the specification claims.

Dates: the application stores JavaScript `Date` values that are always
constructed at local midnight (`new Date(year, month, day)`); we embed such
a value as a civil triple (year, 0-based month, day).  ECMAScript
normalizes out-of-range month/day arguments, which we mirror with
`jsMakeDate`.  Timestamp comparison and millisecond arithmetic are mirrored
through `epochDay` (days since 1970-01-01, the standard civil-from-days
formula) and `msPerDay`.
-/

set_option maxHeartbeats 1000000

namespace ChartApp

/-- A JavaScript `Date` at local midnight: civil year, 0-based month (0–11
after normalization), 1-based day-of-month. -/
structure JsDate where
  year : Int
  month : Int
  day : Int
deriving DecidableEq, Repr

/-- Gregorian leap-year rule, as used by ECMAScript `Date`. -/
def isLeapYear (y : Int) : Bool :=
  (y % 4 == 0 && y % 100 != 0) || y % 400 == 0

/-- Number of days of 0-based month `m` (0 = January … 11 = December) in year
`y`; only meaningful for `0 ≤ m ≤ 11`. -/
def daysInMonth (y : Int) (m : Int) : Int :=
  if m = 1 then (if isLeapYear y then 29 else 28)
  else if m = 3 ∨ m = 5 ∨ m = 8 ∨ m = 10 then 30
  else 31

/-- Days since the epoch 1970-01-01 of a civil triple (Howard Hinnant's
`days_from_civil`); this is the value of `date.getTime()` divided by
86 400 000 for a midnight date. -/
def epochDay (t : JsDate) : Int :=
  let m1 : Int := t.month + 1
  let y : Int := t.year - (if m1 ≤ 2 then 1 else 0)
  let era : Int := y / 400
  let yoe : Int := y - era * 400
  let mp : Int := (m1 + 9) % 12
  let doy : Int := (153 * mp + 2) / 5 + t.day - 1
  let doe : Int := yoe * 365 + yoe / 4 - yoe / 100 + doy
  era * 146097 + doe - 719468

/-- Milliseconds per day, the divisor `1000 * 60 * 60 * 24` used throughout
the source. -/
def msPerDay : Int := 86400000

/-- Millisecond timestamp of a midnight date, i.e. `date.getTime()`. -/
def getTime (t : JsDate) : Int := epochDay t * msPerDay

example : epochDay ⟨1970, 0, 1⟩ = 0 := by decide
example : epochDay ⟨2024, 0, 1⟩ = 19723 := by decide
example : epochDay ⟨1969, 11, 31⟩ = -1 := by decide

/-- The first of the calendar month after (y, m), for a 0-based month. -/
def nextMonthFirst (y m : Int) : JsDate :=
  if m = 11 then ⟨y + 1, 0, 1⟩ else ⟨y, m + 1, 1⟩

theorem daysInMonth_pos (y m : Int) : 1 ≤ daysInMonth y m := by
  unfold daysInMonth
  split
  · split <;> omega
  · split <;> omega

theorem daysInMonth_le (y m : Int) : daysInMonth y m ≤ 31 := by
  unfold daysInMonth
  split
  · split <;> omega
  · split <;> omega

theorem epochDay_nextMonthFirst (y m : Int) (h0 : 0 ≤ m) (h1 : m ≤ 11) :
    epochDay (nextMonthFirst y m) = epochDay ⟨y, m, 1⟩ + daysInMonth y m := by
  unfold nextMonthFirst
  interval_cases m <;>
    (simp only [epochDay, daysInMonth, isLeapYear, Bool.or_eq_true, Bool.and_eq_true,
       beq_iff_eq, bne_iff_ne, ne_eq, reduceIte]
     norm_num
     omega)

/-- A civil triple as ECMAScript `Date` normalization produces it: month in
0–11 and day within the month. -/
def ValidDate (t : JsDate) : Prop :=
  0 ≤ t.month ∧ t.month ≤ 11 ∧ 1 ≤ t.day ∧ t.day ≤ daysInMonth t.year t.month

instance (t : JsDate) : Decidable (ValidDate t) := by
  unfold ValidDate; infer_instance

theorem daysInMonth_ge28 (y m : Int) : 28 ≤ daysInMonth y m := by
  unfold daysInMonth
  split
  · split <;> omega
  · split <;> omega

theorem epochDay_day_linear (y m d : Int) :
    epochDay ⟨y, m, d⟩ = epochDay ⟨y, m, 1⟩ + (d - 1) := by
  simp only [epochDay]
  omega

/-- Carry loop of ECMAScript day normalization: while the day exceeds the
month length, move to the next month.  The fuel argument bounds the number
of iterations; `normDays` supplies a sufficient amount. -/
def goUp : Nat → Int → Int → Int → JsDate
  | 0, y, m, d => ⟨y, m, d⟩
  | fuel + 1, y, m, d =>
    if daysInMonth y m < d then
      (if m = 11 then goUp fuel (y + 1) 0 (d - daysInMonth y m)
       else goUp fuel y (m + 1) (d - daysInMonth y m))
    else ⟨y, m, d⟩

/-- Borrow loop of ECMAScript day normalization: while the day is below 1,
move to the previous month. -/
def goDown : Nat → Int → Int → Int → JsDate
  | 0, y, m, d => ⟨y, m, d⟩
  | fuel + 1, y, m, d =>
    if d < 1 then
      (if m = 0 then goDown fuel (y - 1) 11 (d + daysInMonth (y - 1) 11)
       else goDown fuel y (m - 1) (d + daysInMonth y (m - 1)))
    else ⟨y, m, d⟩

/-- Day-of-month normalization for a 0-based month already in 0–11. -/
def normDays (y m d : Int) : JsDate :=
  if d < 1 then goDown (1 - d).toNat y m d else goUp d.toNat y m d

/-- ECMAScript `new Date(year, month, day)` at local midnight: the two-digit
year quirk (0–99 mapped to 1900–1999), then `MakeDay` month and day
normalization. -/
def jsMakeDate (year month day : Int) : JsDate :=
  let y0 : Int := if 0 ≤ year ∧ year ≤ 99 then year + 1900 else year
  let ym : Int := y0 + month / 12
  let mn : Int := month % 12
  normDays ym mn day

theorem validDate_mk (y m d : Int) (hm0 : 0 ≤ m) (hm1 : m ≤ 11)
    (hd1 : 1 ≤ d) (hd2 : d ≤ daysInMonth y m) : ValidDate ⟨y, m, d⟩ :=
  ⟨hm0, hm1, hd1, hd2⟩

theorem goUp_spec (fuel : Nat) (y m d : Int) (hm0 : 0 ≤ m) (hm1 : m ≤ 11)
    (hd : 1 ≤ d) (hfuel : d ≤ 28 * fuel + 28) :
    ValidDate (goUp fuel y m d) ∧
      epochDay (goUp fuel y m d) = epochDay ⟨y, m, 1⟩ + (d - 1) := by
  induction fuel generalizing y m d with
  | zero =>
    have hge := daysInMonth_ge28 y m
    exact ⟨validDate_mk y m d hm0 hm1 hd (by omega), epochDay_day_linear y m d⟩
  | succ fuel ih =>
    simp only [goUp]
    have hge := daysInMonth_ge28 y m
    by_cases hlt : daysInMonth y m < d
    · rw [if_pos hlt]
      by_cases hm : m = 11
      · rw [if_pos hm]
        have hnext : epochDay ⟨y + 1, 0, 1⟩ = epochDay ⟨y, m, 1⟩ + daysInMonth y m := by
          have := epochDay_nextMonthFirst y m hm0 hm1
          simp only [nextMonthFirst, hm, if_pos] at this
          simpa [hm] using this
        obtain ⟨hv, he⟩ := ih (y + 1) 0 (d - daysInMonth y m) (by omega) (by omega)
          (by omega) (by omega)
        exact ⟨hv, by rw [he, hnext]; ring⟩
      · rw [if_neg hm]
        have hnext : epochDay ⟨y, m + 1, 1⟩ = epochDay ⟨y, m, 1⟩ + daysInMonth y m := by
          have := epochDay_nextMonthFirst y m hm0 hm1
          simpa only [nextMonthFirst, hm, if_false, reduceIte] using this
        obtain ⟨hv, he⟩ := ih y (m + 1) (d - daysInMonth y m) (by omega) (by omega)
          (by omega) (by omega)
        exact ⟨hv, by rw [he, hnext]; ring⟩
    · rw [if_neg hlt]
      exact ⟨validDate_mk y m d hm0 hm1 hd (by omega), epochDay_day_linear y m d⟩

theorem goDown_spec (fuel : Nat) (y m d : Int) (hm0 : 0 ≤ m) (hm1 : m ≤ 11)
    (hd : d ≤ daysInMonth y m) (hfuel : 1 - d ≤ 28 * fuel) :
    ValidDate (goDown fuel y m d) ∧
      epochDay (goDown fuel y m d) = epochDay ⟨y, m, 1⟩ + (d - 1) := by
  induction fuel generalizing y m d with
  | zero =>
    exact ⟨validDate_mk y m d hm0 hm1 (by omega) hd, epochDay_day_linear y m d⟩
  | succ fuel ih =>
    simp only [goDown]
    by_cases hlt : d < 1
    · rw [if_pos hlt]
      by_cases hm : m = 0
      · rw [if_pos hm]
        have hprev : epochDay ⟨y, m, 1⟩ =
            epochDay ⟨y - 1, 11, 1⟩ + daysInMonth (y - 1) 11 := by
          have := epochDay_nextMonthFirst (y - 1) 11 (by omega) (by omega)
          simp only [nextMonthFirst, if_pos] at this
          simpa [hm] using this
        have hge := daysInMonth_ge28 (y - 1) 11
        obtain ⟨hv, he⟩ := ih (y - 1) 11 (d + daysInMonth (y - 1) 11) (by omega) (by omega)
          (by omega) (by omega)
        exact ⟨hv, by rw [he, hprev]; ring⟩
      · rw [if_neg hm]
        have hprev : epochDay ⟨y, m, 1⟩ =
            epochDay ⟨y, m - 1, 1⟩ + daysInMonth y (m - 1) := by
          have := epochDay_nextMonthFirst y (m - 1) (by omega) (by omega)
          have hne : ¬ (m - 1 = 11) := by omega
          simp only [nextMonthFirst, hne, if_false, reduceIte] at this
          simpa using this
        have hge := daysInMonth_ge28 y (m - 1)
        obtain ⟨hv, he⟩ := ih y (m - 1) (d + daysInMonth y (m - 1)) (by omega) (by omega)
          (by omega) (by omega)
        exact ⟨hv, by rw [he, hprev]; ring⟩
    · rw [if_neg hlt]
      exact ⟨validDate_mk y m d hm0 hm1 (by omega) hd, epochDay_day_linear y m d⟩

theorem normDays_spec (y m d : Int) (hm0 : 0 ≤ m) (hm1 : m ≤ 11) :
    ValidDate (normDays y m d) ∧
      epochDay (normDays y m d) = epochDay ⟨y, m, 1⟩ + (d - 1) := by
  unfold normDays
  by_cases hlt : d < 1
  · rw [if_pos hlt]
    have hge := daysInMonth_ge28 y m
    exact goDown_spec _ y m d hm0 hm1 (by omega) (by omega)
  · rw [if_neg hlt]
    exact goUp_spec _ y m d hm0 hm1 (by omega) (by omega)

theorem jsMakeDate_valid (year month day : Int) : ValidDate (jsMakeDate year month day) := by
  unfold jsMakeDate
  have h0 : 0 ≤ month % 12 := Int.emod_nonneg month (by norm_num)
  have h1 : month % 12 < 12 := Int.emod_lt_of_pos month (by norm_num)
  exact (normDays_spec _ _ day h0 (by omega)).1

theorem normDays_id (y m d : Int) (hm0 : 0 ≤ m) (hm1 : m ≤ 11)
    (hd1 : 1 ≤ d) (hd2 : d ≤ daysInMonth y m) : normDays y m d = ⟨y, m, d⟩ := by
  unfold normDays
  rw [if_neg (by omega)]
  rcases Nat.eq_zero_or_pos d.toNat with h | h
  · rw [h]; rfl
  · obtain ⟨fuel, hfuel⟩ : ∃ fuel, d.toNat = fuel + 1 := ⟨d.toNat - 1, by omega⟩
    rw [hfuel]
    simp only [goUp]
    rw [if_neg (by omega)]

/-- JavaScript `date.setDate(date.getDate() + k)` on a midnight date: day
arithmetic followed by ECMAScript day normalization. -/
def addDays (t : JsDate) (k : Int) : JsDate := normDays t.year t.month (t.day + k)

theorem addDays_spec (t : JsDate) (k : Int) (ht : ValidDate t) :
    ValidDate (addDays t k) ∧ epochDay (addDays t k) = epochDay t + k := by
  obtain ⟨y, m, d⟩ := t
  obtain ⟨hm0, hm1, hd1, hd2⟩ := ht
  obtain ⟨hv, he⟩ := normDays_spec y m (d + k) hm0 hm1
  refine ⟨hv, ?_⟩
  rw [addDays, he, epochDay_day_linear y m d]
  ring

/-- Number of days from 1970-01-01 to the normalized date built from raw
constructor arguments. -/
theorem jsMakeDate_epochDay (year month day : Int) :
    epochDay (jsMakeDate year month day) =
      epochDay ⟨(if 0 ≤ year ∧ year ≤ 99 then year + 1900 else year) + month / 12,
        month % 12, 1⟩ + (day - 1) := by
  unfold jsMakeDate
  have h0 : 0 ≤ month % 12 := Int.emod_nonneg month (by norm_num)
  have h1 : month % 12 < 12 := Int.emod_lt_of_pos month (by norm_num)
  exact (normDays_spec _ _ day h0 (by omega)).2

/-!
Embedding of `src/utils/dateUtils.ts` (quarter and year boundaries,
visibility tests, ISO week numbers).  Date values are compared in the
source with JavaScript relational operators, which compare the underlying
millisecond timestamps; `getTime` provides those.
-/

/-- Source `getQuarterStart`: `new Date(year, (quarter - 1) * 3, 1)`. -/
def getQuarterStart (year : Int) (quarter : Int) : JsDate :=
  jsMakeDate year ((quarter - 1) * 3) 1

/-- Source `getQuarterEnd`: `new Date(year, (quarter - 1) * 3 + 2 + 1, 0)`,
the zero day selecting the last day of the quarter's third month. -/
def getQuarterEnd (year : Int) (quarter : Int) : JsDate :=
  jsMakeDate year ((quarter - 1) * 3 + 2 + 1) 0

/-- Source `getYearStart`: `new Date(year, 0, 1)`. -/
def getYearStart (year : Int) : JsDate := jsMakeDate year 0 1

/-- Source `getYearEnd`: `new Date(year, 11, 31)`. -/
def getYearEnd (year : Int) : JsDate := jsMakeDate year 11 31

/-- The application task record: identifier, display name, date range and
optional display color. -/
structure Task where
  id : List Char
  name : List Char
  startDate : JsDate
  endDate : JsDate
  color : Option (List Char)
deriving DecidableEq, Repr

/-- Source `isTaskInQuarter`: the task is visible iff
`task.startDate <= quarterEnd && task.endDate >= quarterStart`. -/
def isTaskInQuarter (task : Task) (year : Int) (quarter : Int) : Bool :=
  decide (getTime task.startDate ≤ getTime (getQuarterEnd year quarter)) &&
    decide (getTime (getQuarterStart year quarter) ≤ getTime task.endDate)

/-- Source `isTaskInYear`: same inclusive-overlap test against the year
bounds. -/
def isTaskInYear (task : Task) (year : Int) : Bool :=
  decide (getTime task.startDate ≤ getTime (getYearEnd year)) &&
    decide (getTime (getYearStart year) ≤ getTime task.endDate)

/-- Source `getWeekNumber`: rebuild the date at UTC midnight via `Date.UTC`
(which carries the same two-digit-year quirk as the `Date` constructor),
shift to the Thursday of the date's Monday-based week with `setUTCDate`,
and count 7-day blocks from January 1 of the Thursday's year with
`Math.ceil`; the numerator is a whole number of days, so the inner division
by `86400000` is exact and the ceiling equals `(x + 6) / 7` on integers. -/
def getWeekNumber (date : JsDate) : Int :=
  let tempDate := jsMakeDate date.year date.month date.day
  let e := epochDay tempDate
  let dayNum : Int := if (e + 4) % 7 = 0 then 7 else (e + 4) % 7
  let thuDate := addDays tempDate (4 - dayNum)
  let yearStartE := epochDay (JsDate.mk thuDate.year 0 1)
  ((epochDay thuDate - yearStartE + 1) + 6) / 7

/-- Modelled from the spec: the epoch day of the first Thursday of year `y`
(the spec fixes the ISO-8601 rule in terms of the year's first Thursday). -/
def isoFirstThursday (y : Int) : Int :=
  let jan1 := epochDay (JsDate.mk y 0 1)
  jan1 + (0 - jan1) % 7

/-- Modelled from the spec: the ISO-8601 week number of a date — weeks run
Monday through Sunday, and week 1 is the week that contains the year's
first Thursday; the week number counts Thursdays from that one. -/
def isoWeekNumber (d : JsDate) : Int :=
  let e := epochDay d
  let isoDow := (e + 3) % 7 + 1
  let thu := addDays d (4 - isoDow)
  1 + (epochDay thu - isoFirstThursday thu.year) / 7

/-!
Embedding of the quarter navigation handlers
(`handlePreviousQuarter` / `handleNextQuarter` in the GanttChart revision);
they transform the `(currentYear, currentQuarter)` pair handed to
`onQuarterChange`.
-/

/-- Source `handlePreviousQuarter`: decrement the quarter, wrapping Q1 to
Q4 of the previous year. -/
def handlePreviousQuarter (currentYear currentQuarter : Int) : Int × Int :=
  let newQuarter := currentQuarter - 1
  if newQuarter < 1 then (currentYear - 1, 4) else (currentYear, newQuarter)

/-- Source `handleNextQuarter`: increment the quarter, wrapping Q4 to Q1 of
the next year. -/
def handleNextQuarter (currentYear currentQuarter : Int) : Int × Int :=
  let newQuarter := currentQuarter + 1
  if newQuarter > 4 then (currentYear + 1, 1) else (currentYear, newQuarter)

/-!
Embedding of the task store: `validateTask` from `useTaskValidation.ts`
and the `addTask` / `updateTask` operations from `useTasks.ts`.  The React
state cell holding the task list is threaded explicitly: each operation
maps the current list to a result and the next list.
-/

/-- Whitespace as JavaScript `String.prototype.trim` removes it. -/
def isTrimmedSpace (c : Char) : Bool := c.isWhitespace

/-- JavaScript `s.trim()`: drop whitespace from both ends. -/
def trimChars (s : List Char) : List Char :=
  ((s.dropWhile isTrimmedSpace).reverse.dropWhile isTrimmedSpace).reverse

/-- One entry of the `foundErrors` array: a field name and a message. -/
structure ValidationError where
  field : List Char
  message : List Char
deriving DecidableEq, Repr

def TASK_NAME_REQUIRED : List Char := ("Ülesande nimi on kohustuslik".toList)

def START_DATE_REQUIRED : List Char := ("Alguskuupäev on kohustuslik".toList)

def END_DATE_REQUIRED : List Char := ("Lõppkuupäev on kohustuslik".toList)

def END_DATE_BEFORE_START : List Char :=
  ("Lõppkuupäev peab olema hiljem alguskuupäevast".toList)

def SAVE_TASK_FAILED : List Char :=
  ("Ülesande salvestamine ebaõnnestus. Palun proovige uuesti.".toList)

def TASK_NOT_FOUND : List Char := ("Ülesannet ei leitud".toList)

/-- A `Partial<Task>` as `validateTask` receives it: every attribute may be
absent. -/
structure PartialTask where
  name : Option (List Char)
  startDate : Option JsDate
  endDate : Option JsDate
  color : Option (List Char)
deriving DecidableEq, Repr

/-- Source `validateTask`: collect the `foundErrors` array.  A missing or
whitespace-only name, a missing start or end date, and a start date
strictly after the end date each contribute one entry, in source order. -/
def validateTask (task : PartialTask) : List ValidationError :=
  (match task.name with
    | none => [ValidationError.mk ("name".toList) TASK_NAME_REQUIRED]
    | some n => if trimChars n = [] then
        [ValidationError.mk ("name".toList) TASK_NAME_REQUIRED] else []) ++
  (match task.startDate with
    | none => [ValidationError.mk ("startDate".toList) START_DATE_REQUIRED]
    | some _ => []) ++
  (match task.endDate with
    | none => [ValidationError.mk ("endDate".toList) END_DATE_REQUIRED]
    | some _ => []) ++
  (match task.startDate, task.endDate with
    | some s, some e =>
      if getTime e < getTime s then
        [ValidationError.mk ("endDate".toList) END_DATE_BEFORE_START] else []
    | _, _ => [])

/-- The `Omit<Task, 'id'>` payload handed to `addTask`. -/
structure TaskData where
  name : List Char
  startDate : JsDate
  endDate : JsDate
  color : Option (List Char)
deriving DecidableEq, Repr

/-- Result record of `addTask` / `updateTask`: either
`{success: true, task}` or `{success: false, errors: {general}}`; a plain
return value, never an exception. -/
structure SaveResult where
  success : Bool
  task : Option Task
  generalError : Option (List Char)
deriving DecidableEq, Repr

/-- JavaScript `taskData.color || getTaskColor()`: an absent or empty color
string is replaced by the palette pick. -/
def resolveColor (c : Option (List Char)) (defaultColor : List Char) : List Char :=
  match c with
  | none => defaultColor
  | some s => if s = [] then defaultColor else s

/-- Source `addTask` over an explicit task-list state.  `newId` stands for
the `generateTaskId()` draw and `defaultColor` for the `getTaskColor()`
draw, both made outside the embedded logic. -/
def addTask (newId defaultColor : List Char) (taskData : TaskData)
    (tasks : List Task) : SaveResult × List Task :=
  let errs := validateTask
    (PartialTask.mk (some taskData.name) (some taskData.startDate)
      (some taskData.endDate) taskData.color)
  if errs.length = 0 then
    let newTask : Task :=
      Task.mk newId (trimChars taskData.name) taskData.startDate taskData.endDate
        (some (resolveColor taskData.color defaultColor))
    (SaveResult.mk true (some newTask) none, tasks ++ [newTask])
  else
    (SaveResult.mk false none (some SAVE_TASK_FAILED), tasks)

/-- The `Partial<Omit<Task, 'id'>>` update payload of `updateTask`. -/
structure UpdateData where
  name : Option (List Char)
  startDate : Option JsDate
  endDate : Option JsDate
  color : Option (List Char)
deriving DecidableEq, Repr

/-- Source `updateTask`: find the task, merge the update over it (spread
semantics: present fields override), re-validate, and replace it in the
list on success. -/
def updateTask (taskId : List Char) (updateData : UpdateData)
    (tasks : List Task) : SaveResult × List Task :=
  match tasks.find? (fun t => t.id = taskId) with
  | none => (SaveResult.mk false none (some TASK_NOT_FOUND), tasks)
  | some existingTask =>
    let mergedName := updateData.name.getD existingTask.name
    let mergedStart := updateData.startDate.getD existingTask.startDate
    let mergedEnd := updateData.endDate.getD existingTask.endDate
    let mergedColor := match updateData.color with
      | some c => some c
      | none => existingTask.color
    let errs := validateTask
      (PartialTask.mk (some mergedName) (some mergedStart) (some mergedEnd) mergedColor)
    if errs.length = 0 then
      let updatedTask : Task :=
        Task.mk taskId (trimChars mergedName) mergedStart mergedEnd mergedColor
      (SaveResult.mk true (some updatedTask) none,
        tasks.map (fun t => if t.id = taskId then updatedTask else t))
    else
      (SaveResult.mk false none (some SAVE_TASK_FAILED), tasks)

/-!
Embedding of the Gantt layout engine
(`useGanttCalculations`, quarter mode): visibility filtering, per-task
geometry, and first-fit row assignment.  JavaScript objects in the `bars`
array are mutated in place by the row-assignment pass; we model object
identity by pairing each bar with its index in `bars`, running the pass
over the index-bar pairs, and reading the assigned rows back into the
array order.
-/

/-- Math.ceil of the real quotient of two integers, for a positive
divisor. -/
def jsCeilDiv (a b : Int) : Int := (a + b - 1) / b

/-- A bar of the chart: the task fields spread into a record together with
the computed geometry (`TaskBarData extends Task`). -/
structure TaskBar where
  id : List Char
  name : List Char
  startDate : JsDate
  endDate : JsDate
  color : Option (List Char)
  left : ℚ
  width : ℚ
  row : Nat
  isPartial : Bool
  continuesLeft : Bool
  continuesRight : Bool
deriving DecidableEq, Repr

/-- Geometry pass of the layout engine: clamp the task to the timeline,
convert the day offset and inclusive day count to percentages, and apply
the 1% width floor; `row` is initialized to 0 and set by the later pass. -/
def mkTaskBar (timelineStart timelineEnd : JsDate) (totalDays : Int)
    (task : Task) : TaskBar :=
  let displayStartDate :=
    if getTime task.startDate < getTime timelineStart then timelineStart else task.startDate
  let displayEndDate :=
    if getTime timelineEnd < getTime task.endDate then timelineEnd else task.endDate
  let startOffset : ℚ :=
    max 0 (((getTime displayStartDate - getTime timelineStart : Int) : ℚ) / (msPerDay : ℚ))
  let duration : Int :=
    jsCeilDiv (getTime displayEndDate - getTime displayStartDate) msPerDay + 1
  let left : ℚ := startOffset / (totalDays : ℚ) * 100
  let width : ℚ := (duration : ℚ) / (totalDays : ℚ) * 100
  TaskBar.mk task.id task.name task.startDate task.endDate task.color
    left (max width 1) 0
    (decide (getTime task.startDate < getTime timelineStart) ||
      decide (getTime timelineEnd < getTime task.endDate))
    (decide (getTime task.startDate < getTime timelineStart))
    (decide (getTime timelineEnd < getTime task.endDate))

/-- Insertion step of a stable ascending sort by start date, the behavior
of `Array.prototype.sort` with comparator
`a.startDate.getTime() - b.startDate.getTime()` (stable per ES2019). -/
def insertByStart (x : Nat × TaskBar) : List (Nat × TaskBar) → List (Nat × TaskBar)
  | [] => [x]
  | y :: ys =>
    if getTime y.2.startDate ≤ getTime x.2.startDate then y :: insertByStart x ys
    else x :: y :: ys

/-- Stable sort of the indexed bars by start date. -/
def sortByStart : List (Nat × TaskBar) → List (Nat × TaskBar)
  | [] => []
  | x :: xs => insertByStart x (sortByStart xs)

/-- The closed-interval date-range intersection test of the row scan:
`task.startDate <= existing.endDate && task.endDate >= existing.startDate`. -/
def overlapsB (a b : TaskBar) : Bool :=
  decide (getTime a.startDate ≤ getTime b.endDate) &&
    decide (getTime b.startDate ≤ getTime a.endDate)

/-- The `row.some(...)` conflict check of the row scan. -/
def rowHasOverlap (row : List (Nat × TaskBar)) (t : TaskBar) : Bool :=
  row.any (fun p => overlapsB t p.2)

/-- The first-to-last scan for the first row without a conflict. -/
def findFirstFit (rows : List (List (Nat × TaskBar))) (t : TaskBar) : Option Nat :=
  match rows with
  | [] => none
  | r :: rs =>
    if rowHasOverlap r t then (findFirstFit rs t).map (fun i => i + 1) else some 0

/-- Append a bar to row `i`, creating the new row when `i` is the current
row count. -/
def pushAt (rows : List (List (Nat × TaskBar))) (i : Nat)
    (p : Nat × TaskBar) : List (List (Nat × TaskBar)) :=
  if h : i < rows.length then rows.set i (rows.get ⟨i, h⟩ ++ [p]) else rows ++ [[p]]

/-- The row-assignment loop: each bar, in sorted order, takes the first
row without a date overlap (or a fresh row) and is recorded in it. -/
def assignLoop : List (Nat × TaskBar) → List (List (Nat × TaskBar)) → List (Nat × TaskBar)
  | [], _ => []
  | (i, t) :: ts, rows =>
    let j := (findFirstFit rows t).getD rows.length
    let t2 := { t with row := j }
    (i, t2) :: assignLoop ts (pushAt rows j (i, t2))

/-- Source visibility filter of the quarter view:
`tasks.filter(task => isTaskInQuarter(task, currentYear, currentQuarter))`. -/
def quarterTasks (tasks : List Task) (currentYear currentQuarter : Int) : List Task :=
  tasks.filter (fun task => isTaskInQuarter task currentYear currentQuarter)

/-- The timeline day count of the layout engine:
`Math.ceil((endDate - startDate) / msPerDay) + 1`. -/
def timelineTotalDays (currentYear currentQuarter : Int) : Int :=
  jsCeilDiv
    (getTime (getQuarterEnd currentYear currentQuarter) -
      getTime (getQuarterStart currentYear currentQuarter)) msPerDay + 1

/-- The `bars` array before row assignment: one geometry bar per visible
task, in filter order. -/
def layoutBars (tasks : List Task) (currentYear currentQuarter : Int) : List TaskBar :=
  (quarterTasks tasks currentYear currentQuarter).map
    (mkTaskBar (getQuarterStart currentYear currentQuarter)
      (getQuarterEnd currentYear currentQuarter)
      (timelineTotalDays currentYear currentQuarter))

/-- The result of the row-assignment pass over the stably sorted indexed
bars. -/
def layoutAssigned (tasks : List Task) (currentYear currentQuarter : Int) :
    List (Nat × TaskBar) :=
  assignLoop (sortByStart (layoutBars tasks currentYear currentQuarter).enum) []

/-- The `taskBars` computation of the layout engine in quarter mode: an
empty visible list short-circuits to `[]`; otherwise build the geometry
bars, assign rows over a stable start-date sort, and return the bars array
(every element mutated with its assigned row) in construction order. -/
def taskBars (tasks : List Task) (currentYear currentQuarter : Int) : List TaskBar :=
  if (quarterTasks tasks currentYear currentQuarter).length = 0 then []
  else
    (layoutBars tasks currentYear currentQuarter).enum.map (fun p =>
      match (layoutAssigned tasks currentYear currentQuarter).find? (fun q => q.1 = p.1) with
      | some q => { p.2 with row := q.2.row }
      | none => p.2)

/-!
Embedding of the week breakdown (`buildWeeks` in the Period Resolver
revision): starting from the Monday on or before the period start, emit a
descriptor per 7-day step while the step's Monday is inside the period.
-/

/-- One week descriptor: the Monday `Date`, the `weekEnd` timestamp
(Sunday 23:59:59.999), the ISO week number of the Monday, and the count of
the week's days that are clipped into the period. -/
structure WeekInfo where
  startDate : JsDate
  endMs : Int
  weekNumber : Int
  days : Int
deriving DecidableEq, Repr

/-- The `while (current <= endDate)` loop of `buildWeeks`.  The fuel
argument bounds the iteration count; `buildWeeks` supplies one step per
remaining week, which suffices because each pass advances `current` by
seven days. -/
def buildWeeksGo : Nat → JsDate → JsDate → JsDate → List WeekInfo
  | 0, _, _, _ => []
  | fuel + 1, startDate, endDate, current =>
    if getTime current ≤ getTime endDate then
      let weekStart := current
      let weekEndMs := getTime weekStart + 6 * msPerDay + (msPerDay - 1)
      let clampedStartMs :=
        if getTime weekStart < getTime startDate then getTime startDate else getTime weekStart
      let clampedEndMs := if getTime endDate < weekEndMs then getTime endDate else weekEndMs
      let days := (clampedEndMs - clampedStartMs) / msPerDay + 1
      WeekInfo.mk weekStart weekEndMs (getWeekNumber weekStart) days ::
        buildWeeksGo fuel startDate endDate (addDays current 7)
    else []

/-- Source `buildWeeks`: find the Monday on or before the period start
(`getDay` adjustment, Sunday jumping back six days) and run the weekly
loop. -/
def buildWeeks (startDate endDate : JsDate) : List WeekInfo :=
  let day := (epochDay startDate + 4) % 7
  let diff : Int := if day = 0 then -6 else 1 - day
  let firstWeekStart := addDays startDate diff
  buildWeeksGo ((epochDay endDate - epochDay firstWeekStart) / 7 + 1).toNat
    startDate endDate firstWeekStart

/-!
Embedding of the textual date layer: `parseEstonianDate` from
`dateUtils.ts` and the `DD.MM.YYYY` rendering of `formatDate`.  Strings
are embedded as character lists.
-/

/-- Decimal rendering of a natural number, most significant digit first.
The fuel is one step per digit; `natToChars` supplies more. -/
def natToCharsGo : Nat → Nat → List Char
  | 0, _ => []
  | fuel + 1, n =>
    if n < 10 then [Char.ofNat (48 + n)]
    else natToCharsGo fuel (n / 10) ++ [Char.ofNat (48 + n % 10)]

/-- Decimal rendering of a natural number. -/
def natToChars (n : Nat) : List Char := natToCharsGo (n + 1) n

/-- Two-digit field rendering (`'2-digit'`): a single leading zero below
ten. -/
def pad2 (n : Int) : List Char :=
  if n < 10 then '0' :: natToChars n.toNat else natToChars n.toNat

/-- Year rendering (`'numeric'`): the plain decimal value, sign included. -/
def yearChars (y : Int) : List Char :=
  if y < 0 then '-' :: natToChars (-y).toNat else natToChars y.toNat

/-- Modelled from the spec: the body of `formatDate` is
`date.toLocaleDateString('et-EE', {day: '2-digit', month: '2-digit',
year: 'numeric'})`, an Intl call outside the repository; the spec fixes
its output as the canonical `DD.MM.YYYY` textual form, which we render
directly from the civil fields. -/
def formatDate (d : JsDate) : List Char :=
  pad2 d.day ++ '.' :: pad2 (d.month + 1) ++ '.' :: yearChars d.year

/-- JavaScript `String.prototype.split('.')`: cut at every dot, keeping
empty pieces. -/
def splitOnDot : List Char → List (List Char)
  | [] => [[]]
  | c :: cs =>
    if c = '.' then [] :: splitOnDot cs
    else
      match splitOnDot cs with
      | [] => [[c]]
      | h :: t => (c :: h) :: t

/-- Digit scan of `parseInt`: the value of the maximal leading run of
decimal digits, `NaN` (none) when the run is empty. -/
def parseDigits (s : List Char) : Option Nat :=
  let ds := s.takeWhile Char.isDigit
  if ds = [] then none
  else some (ds.foldl (fun a c => a * 10 + (c.toNat - 48)) 0)

/-- JavaScript `parseInt(s, 10)`: skip leading whitespace, an optional
sign, then the leading digit run. -/
def jsParseInt (s : List Char) : Option Int :=
  match s.dropWhile isTrimmedSpace with
  | c :: rest =>
    if c = '-' then (parseDigits rest).map (fun n => -(n : Int))
    else if c = '+' then (parseDigits rest).map (fun n => (n : Int))
    else (parseDigits (c :: rest)).map (fun n => (n : Int))
  | [] => (parseDigits []).map (fun n => (n : Int))

/-- Source `parseEstonianDate`: reject the empty string, trim, split on
dots into exactly three parts, parse day, month (made 0-based) and year,
build the `Date`, and reject when normalization moved any field. -/
def parseEstonianDate (dateStr : List Char) : Option JsDate :=
  if dateStr = [] then none
  else
    match splitOnDot (trimChars dateStr) with
    | [p0, p1, p2] =>
      match jsParseInt p0, jsParseInt p1, jsParseInt p2 with
      | some day, some monthRaw, some year =>
        let month := monthRaw - 1
        let date := jsMakeDate year month day
        if date.day = day ∧ date.month = month ∧ date.year = year then some date
        else none
      | _, _, _ => none
    | _ => none

/-- A string of the canonical `DD.MM.YYYY` textual shape: two day digits,
two month digits, four year digits. -/
def canonicalDateString (d m y : Nat) : List Char :=
  pad2 (d : Int) ++ '.' :: pad2 (m : Int) ++ '.' ::
    (List.replicate (4 - (natToChars y).length) '0' ++ natToChars y)

/-!
Supporting lemmas about the resolved quarter and year boundaries.
-/

/-- The year the `Date` constructor actually uses: the two-digit-year quirk
applied. -/
def quirkYear (y : Int) : Int := if 0 ≤ y ∧ y ≤ 99 then y + 1900 else y

theorem epoch_succ_month (Y m : Int) (h0 : 0 ≤ m) (h1 : m ≤ 10) :
    epochDay ⟨Y, m + 1, 1⟩ = epochDay ⟨Y, m, 1⟩ + daysInMonth Y m := by
  have h := epochDay_nextMonthFirst Y m h0 (by omega)
  rw [nextMonthFirst, if_neg (by omega)] at h
  exact h

theorem getQuarterStart_shape (y q : Int) (hq : q = 1 ∨ q = 2 ∨ q = 3 ∨ q = 4) :
    getQuarterStart y q = ⟨quirkYear y, (q - 1) * 3, 1⟩ := by
  have h28 : ∀ m : Int, 28 ≤ daysInMonth (quirkYear y) m := fun m => daysInMonth_ge28 _ m
  rcases hq with h | h | h | h <;> subst h <;>
    (show jsMakeDate y _ 1 = _
     rw [jsMakeDate, quirkYear]
     norm_num
     exact normDays_id _ _ _ (by norm_num) (by norm_num) (by norm_num)
       (le_trans (by norm_num) (h28 _)))

theorem getQuarterEnd_shape (y q : Int) (hq : q = 1 ∨ q = 2 ∨ q = 3 ∨ q = 4) :
    getQuarterEnd y q =
      ⟨quirkYear y, (q - 1) * 3 + 2, daysInMonth (quirkYear y) ((q - 1) * 3 + 2)⟩ := by
  rcases hq with h | h | h | h <;> subst h <;>
    (rw [getQuarterEnd, jsMakeDate, quirkYear]
     norm_num [normDays, goDown])

theorem getYearStart_shape (y : Int) : getYearStart y = ⟨quirkYear y, 0, 1⟩ := by
  rw [getYearStart, jsMakeDate, quirkYear]
  norm_num
  exact normDays_id _ _ _ (by norm_num) (by norm_num) (by norm_num)
    (le_trans (by norm_num) (daysInMonth_ge28 _ 0))

theorem getYearEnd_shape (y : Int) : getYearEnd y = ⟨quirkYear y, 11, 31⟩ := by
  have h31 : daysInMonth (if 0 ≤ y ∧ y ≤ 99 then y + 1900 else y) 11 = 31 := by
    rw [daysInMonth]
    norm_num
  rw [getYearEnd, jsMakeDate, quirkYear]
  norm_num
  exact normDays_id _ _ _ (by norm_num) (by norm_num) (by norm_num) (le_of_eq h31.symm)

theorem epoch_first_month_le (Y m : Int) (h0 : 0 ≤ m) (h1 : m ≤ 11) :
    epochDay ⟨Y, 0, 1⟩ ≤ epochDay ⟨Y, m, 1⟩ := by
  have e0 := epoch_succ_month Y 0 (by norm_num) (by norm_num)
  have e1 := epoch_succ_month Y 1 (by norm_num) (by norm_num)
  have e2 := epoch_succ_month Y 2 (by norm_num) (by norm_num)
  have e3 := epoch_succ_month Y 3 (by norm_num) (by norm_num)
  have e4 := epoch_succ_month Y 4 (by norm_num) (by norm_num)
  have e5 := epoch_succ_month Y 5 (by norm_num) (by norm_num)
  have e6 := epoch_succ_month Y 6 (by norm_num) (by norm_num)
  have e7 := epoch_succ_month Y 7 (by norm_num) (by norm_num)
  have e8 := epoch_succ_month Y 8 (by norm_num) (by norm_num)
  have e9 := epoch_succ_month Y 9 (by norm_num) (by norm_num)
  have e10 := epoch_succ_month Y 10 (by norm_num) (by norm_num)
  have p0 := daysInMonth_pos Y 0
  have p1 := daysInMonth_pos Y 1
  have p2 := daysInMonth_pos Y 2
  have p3 := daysInMonth_pos Y 3
  have p4 := daysInMonth_pos Y 4
  have p5 := daysInMonth_pos Y 5
  have p6 := daysInMonth_pos Y 6
  have p7 := daysInMonth_pos Y 7
  have p8 := daysInMonth_pos Y 8
  have p9 := daysInMonth_pos Y 9
  have p10 := daysInMonth_pos Y 10
  norm_num at e0 e1 e2 e3 e4 e5 e6 e7 e8 e9 e10
  interval_cases m <;> omega

theorem quarterStart_le_quarterEnd (y q : Int) (hq : q = 1 ∨ q = 2 ∨ q = 3 ∨ q = 4) :
    epochDay (getQuarterStart y q) ≤ epochDay (getQuarterEnd y q) := by
  rw [getQuarterStart_shape y q hq, getQuarterEnd_shape y q hq]
  set Y := quirkYear y with hY
  have hd := daysInMonth_pos Y ((q - 1) * 3 + 2)
  have hlin := epochDay_day_linear Y ((q - 1) * 3 + 2) (daysInMonth Y ((q - 1) * 3 + 2))
  have s1 := epoch_succ_month Y ((q - 1) * 3) (by rcases hq with h | h | h | h <;> omega)
    (by rcases hq with h | h | h | h <;> omega)
  have s2 := epoch_succ_month Y ((q - 1) * 3 + 1) (by rcases hq with h | h | h | h <;> omega)
    (by rcases hq with h | h | h | h <;> omega)
  have p1 := daysInMonth_pos Y ((q - 1) * 3)
  have p2 := daysInMonth_pos Y ((q - 1) * 3 + 1)
  have h21 : (q - 1) * 3 + 1 + 1 = (q - 1) * 3 + 2 := by ring
  rw [h21] at s2
  omega

theorem yearStart_le_yearEnd (y : Int) :
    epochDay (getYearStart y) ≤ epochDay (getYearEnd y) := by
  rw [getYearStart_shape, getYearEnd_shape]
  have h := epoch_first_month_le (quirkYear y) 11 (by norm_num) (by norm_num)
  have hlin := epochDay_day_linear (quirkYear y) 11 31
  omega

/-!
Claim theorems.
-/

/-- C4, counterexample: the claim quantifies over every integer year, but
the `Date` constructor maps two-digit years to 1900–1999, so the resolved
Q1 of year 50 starts on 1950-01-01, not on the 1st of January of year 50. -/
theorem claim4_counterexample :
    getQuarterStart 50 1 = ⟨1950, 0, 1⟩ ∧ (getQuarterStart 50 1).year ≠ 50 := by
  decide

/-- C4 (amended): for every year outside the two-digit range 0–99 and every
quarter Q in 1–4, the quarter starts on the 1st of 0-based month (Q-1)*3
and ends on the last calendar day of 0-based month (Q-1)*3+2, with
February's length leap-year-correct (Q1 2024 ends Mar 31; February has 28
days in 2023 and 29 in 2024). -/
theorem claim4_quarter_boundaries (y q : Int) (hy : y < 0 ∨ 100 ≤ y)
    (hq : q = 1 ∨ q = 2 ∨ q = 3 ∨ q = 4) :
    getQuarterStart y q = ⟨y, (q - 1) * 3, 1⟩ ∧
    getQuarterEnd y q = ⟨y, (q - 1) * 3 + 2, daysInMonth y ((q - 1) * 3 + 2)⟩ ∧
    getQuarterEnd 2024 1 = ⟨2024, 2, 31⟩ ∧
    daysInMonth 2023 1 = 28 ∧ daysInMonth 2024 1 = 29 := by
  have hqy : quirkYear y = y := by rw [quirkYear, if_neg (by omega)]
  refine ⟨?_, ?_, by decide, by decide, by decide⟩
  · rw [getQuarterStart_shape y q hq, hqy]
  · rw [getQuarterEnd_shape y q hq, hqy]

theorem claim4_witness :
    getQuarterStart 2024 2 = ⟨2024, (2 - 1) * 3, 1⟩ ∧
    getQuarterEnd 2024 2 = ⟨2024, (2 - 1) * 3 + 2, daysInMonth 2024 ((2 - 1) * 3 + 2)⟩ ∧
    getQuarterEnd 2024 1 = ⟨2024, 2, 31⟩ ∧
    daysInMonth 2023 1 = 28 ∧ daysInMonth 2024 1 = 29 :=
  claim4_quarter_boundaries 2024 2 (Or.inr (by norm_num)) (Or.inr (Or.inl rfl))

/-- C5: quarter navigation decrements and increments with wrap-around —
previous from Q1 goes to Q4 of the prior year, next from Q4 to Q1 of the
following year, and the concrete transitions from (2024, Q4) and
(2024, Q1) land on (2025, Q1) and (2023, Q4). -/
theorem claim5_navigation_wrap (y q : Int) (hq : q = 1 ∨ q = 2 ∨ q = 3 ∨ q = 4) :
    handleNextQuarter 2024 4 = (2025, 1) ∧
    handlePreviousQuarter 2024 1 = (2023, 4) ∧
    handlePreviousQuarter y q = (if q = 1 then (y - 1, 4) else (y, q - 1)) ∧
    handleNextQuarter y q = (if q = 4 then (y + 1, 1) else (y, q + 1)) := by
  refine ⟨by decide, by decide, ?_, ?_⟩ <;>
    (rcases hq with h | h | h | h <;> subst h <;>
      simp only [handlePreviousQuarter, handleNextQuarter] <;> norm_num)

theorem claim5_witness :
    handleNextQuarter 2024 4 = (2025, 1) ∧
    handlePreviousQuarter 2024 1 = (2023, 4) ∧
    handlePreviousQuarter 2024 1 = (if (1 : Int) = 1 then (2024 - 1, 4) else (2024, 1 - 1)) ∧
    handleNextQuarter 2024 1 = (if (1 : Int) = 4 then (2024 + 1, 1) else (2024, 1 + 1)) :=
  claim5_navigation_wrap 2024 1 (Or.inl rfl)

/-- C6, counterexample: a task whose start and end dates are equal passes
the store's validation — `validateTask` reports no errors and `addTask`
succeeds and appends it — contradicting the claim that zero-length tasks
are rejected. -/
theorem claim6_counterexample :
    validateTask
        (PartialTask.mk (some ("A".toList)) (some ⟨2024, 0, 5⟩) (some ⟨2024, 0, 5⟩) none)
      = [] ∧
    (addTask ("id1".toList) ("c".toList)
        (TaskData.mk ("A".toList) ⟨2024, 0, 5⟩ ⟨2024, 0, 5⟩ none) []).1.success = true ∧
    (addTask ("id1".toList) ("c".toList)
        (TaskData.mk ("A".toList) ⟨2024, 0, 5⟩ ⟨2024, 0, 5⟩ none) []).2 ≠ [] := by
  decide

theorem validateTask_full (n : List Char) (s e : JsDate) (c : Option (List Char))
    (hn : trimChars n ≠ []) :
    validateTask (PartialTask.mk (some n) (some s) (some e) c) =
      (if getTime e < getTime s then
        [ValidationError.mk ("endDate".toList) END_DATE_BEFORE_START] else []) := by
  simp only [validateTask, hn, if_neg, reduceIte]
  rfl

theorem validateTask_date_error (n : List Char) (s e : JsDate) (c : Option (List Char))
    (h : getTime e < getTime s) :
    (validateTask (PartialTask.mk (some n) (some s) (some e) c)).length ≠ 0 := by
  simp only [validateTask, List.length_append]
  rw [if_pos h]
  split <;> simp

/-- C6 (amended): the store's validation rejects a submitted task exactly
when its start date is strictly after its end date — a task with equal
start and end dates is accepted.  On rejection both `addTask` and
`updateTask` return a plain failure value (success false, a general error
message, no task) and leave the stored list unchanged. -/
theorem claim6_strict_rejection (newId defaultColor taskId : List Char) (d : TaskData)
    (u : UpdateData) (tasks : List Task) (hname : trimChars d.name ≠ []) :
    ((addTask newId defaultColor d tasks).1.success = true ↔
      getTime d.startDate ≤ getTime d.endDate) ∧
    (getTime d.endDate < getTime d.startDate →
      (addTask newId defaultColor d tasks).1 =
        SaveResult.mk false none (some SAVE_TASK_FAILED) ∧
      (addTask newId defaultColor d tasks).2 = tasks) ∧
    (∀ ex, tasks.find? (fun t => t.id = taskId) = some ex →
      getTime (u.endDate.getD ex.endDate) < getTime (u.startDate.getD ex.startDate) →
      (updateTask taskId u tasks).1 =
        SaveResult.mk false none (some SAVE_TASK_FAILED) ∧
      (updateTask taskId u tasks).2 = tasks) := by
  refine ⟨?_, ?_, ?_⟩
  · rw [addTask, validateTask_full d.name d.startDate d.endDate d.color hname]
    by_cases h : getTime d.endDate < getTime d.startDate
    · rw [if_pos h]
      simp only [List.length_cons, List.length_nil]
      norm_num
      omega
    · rw [if_neg h]
      simp only [List.length_nil, reduceIte]
      constructor
      · intro _; omega
      · intro _; trivial
  · intro h
    rw [addTask, validateTask_full d.name d.startDate d.endDate d.color hname, if_pos h]
    exact ⟨rfl, rfl⟩
  · intro ex hfind h
    rw [updateTask, hfind]
    simp only
    rw [if_neg (validateTask_date_error _ _ _ _ h)]
    exact ⟨rfl, rfl⟩

theorem claim6_witness :
    ((addTask ("id1".toList) ("c".toList)
        (TaskData.mk ("A".toList) ⟨2024, 0, 6⟩ ⟨2024, 0, 5⟩ none)
        [Task.mk ("t0".toList) ("B".toList) ⟨2024, 0, 1⟩ ⟨2024, 0, 2⟩ none]).1.success = true ↔
      getTime (⟨2024, 0, 6⟩ : JsDate) ≤ getTime (⟨2024, 0, 5⟩ : JsDate)) ∧
    (getTime (⟨2024, 0, 5⟩ : JsDate) < getTime (⟨2024, 0, 6⟩ : JsDate) →
      (addTask ("id1".toList) ("c".toList)
        (TaskData.mk ("A".toList) ⟨2024, 0, 6⟩ ⟨2024, 0, 5⟩ none)
        [Task.mk ("t0".toList) ("B".toList) ⟨2024, 0, 1⟩ ⟨2024, 0, 2⟩ none]).1 =
          SaveResult.mk false none (some SAVE_TASK_FAILED) ∧
      (addTask ("id1".toList) ("c".toList)
        (TaskData.mk ("A".toList) ⟨2024, 0, 6⟩ ⟨2024, 0, 5⟩ none)
        [Task.mk ("t0".toList) ("B".toList) ⟨2024, 0, 1⟩ ⟨2024, 0, 2⟩ none]).2 =
        [Task.mk ("t0".toList) ("B".toList) ⟨2024, 0, 1⟩ ⟨2024, 0, 2⟩ none]) ∧
    (∀ ex, [Task.mk ("t0".toList) ("B".toList) ⟨2024, 0, 1⟩ ⟨2024, 0, 2⟩ none].find?
        (fun t => t.id = ("t0".toList)) = some ex →
      getTime ((some (⟨2024, 0, 1⟩ : JsDate)).getD ex.endDate) <
        getTime ((some (⟨2024, 0, 3⟩ : JsDate)).getD ex.startDate) →
      (updateTask ("t0".toList)
        (UpdateData.mk none (some ⟨2024, 0, 3⟩) (some ⟨2024, 0, 1⟩) none)
        [Task.mk ("t0".toList) ("B".toList) ⟨2024, 0, 1⟩ ⟨2024, 0, 2⟩ none]).1 =
          SaveResult.mk false none (some SAVE_TASK_FAILED) ∧
      (updateTask ("t0".toList)
        (UpdateData.mk none (some ⟨2024, 0, 3⟩) (some ⟨2024, 0, 1⟩) none)
        [Task.mk ("t0".toList) ("B".toList) ⟨2024, 0, 1⟩ ⟨2024, 0, 2⟩ none]).2 =
        [Task.mk ("t0".toList) ("B".toList) ⟨2024, 0, 1⟩ ⟨2024, 0, 2⟩ none]) :=
  claim6_strict_rejection ("id1".toList) ("c".toList) ("t0".toList)
    (TaskData.mk ("A".toList) ⟨2024, 0, 6⟩ ⟨2024, 0, 5⟩ none)
    (UpdateData.mk none (some ⟨2024, 0, 3⟩) (some ⟨2024, 0, 1⟩) none)
    [Task.mk ("t0".toList) ("B".toList) ⟨2024, 0, 1⟩ ⟨2024, 0, 2⟩ none]
    (by decide)

/-- C8, counterexample: calling the resolver with a quarter outside 1–4
does not fail — it silently returns an ordinary period through month
overflow: quarter 5 of 2024 starts where Q1 2025 starts, and quarter 0 of
2024 ends on 2023-12-31. -/
theorem claim8_counterexample :
    getQuarterStart 2024 5 = getQuarterStart 2025 1 ∧
    getQuarterStart 2024 5 = ⟨2025, 0, 1⟩ ∧
    getQuarterEnd 2024 0 = ⟨2023, 11, 31⟩ := by
  decide

/-- C8 (amended): out-of-range quarter values are not rejected at runtime
(the 1–4 restriction lives only in the static type); the resolver
normalizes them through month overflow, so quarter q+4 of year y resolves
to the same period as quarter q of year y+1 (years outside the two-digit
quirk range). -/
theorem claim8_no_runtime_check (y q : Int) (hy : ¬(0 ≤ y ∧ y ≤ 99))
    (hy1 : ¬(0 ≤ y + 1 ∧ y + 1 ≤ 99)) :
    getQuarterStart y (q + 4) = getQuarterStart (y + 1) q ∧
    getQuarterEnd y (q + 4) = getQuarterEnd (y + 1) q := by
  constructor
  · rw [getQuarterStart, getQuarterStart, jsMakeDate, jsMakeDate]
    simp only [if_neg hy, if_neg hy1]
    have h1 : y + (q + 4 - 1) * 3 / 12 = y + 1 + (q - 1) * 3 / 12 := by omega
    have h2 : (q + 4 - 1) * 3 % 12 = (q - 1) * 3 % 12 := by omega
    rw [h1, h2]
  · rw [getQuarterEnd, getQuarterEnd, jsMakeDate, jsMakeDate]
    simp only [if_neg hy, if_neg hy1]
    have h1 : y + ((q + 4 - 1) * 3 + 2 + 1) / 12 = y + 1 + ((q - 1) * 3 + 2 + 1) / 12 := by
      omega
    have h2 : ((q + 4 - 1) * 3 + 2 + 1) % 12 = ((q - 1) * 3 + 2 + 1) % 12 := by omega
    rw [h1, h2]

theorem claim8_witness :
    getQuarterStart 2024 (1 + 4) = getQuarterStart (2024 + 1) 1 ∧
    getQuarterEnd 2024 (1 + 4) = getQuarterEnd (2024 + 1) 1 :=
  claim8_no_runtime_check 2024 1 (by norm_num) (by norm_num)

theorem getTime_le_getTime (a b : JsDate) :
    getTime a ≤ getTime b ↔ epochDay a ≤ epochDay b := by
  simp only [getTime, msPerDay]
  omega

/-- C2: a task is visible in a period exactly when
`task.startDate <= period.endDate` and `task.endDate >= period.startDate`
(both quarter and year mode); in particular a task starting on the
period's last day is visible, and a task ending the day before the
period's first day is not. -/
theorem claim2_visibility_filter (t : Task) (y q : Int)
    (hq : q = 1 ∨ q = 2 ∨ q = 3 ∨ q = 4)
    (hv : getTime t.startDate ≤ getTime t.endDate) :
    (isTaskInQuarter t y q = true ↔
      (getTime t.startDate ≤ getTime (getQuarterEnd y q) ∧
        getTime (getQuarterStart y q) ≤ getTime t.endDate)) ∧
    (isTaskInYear t y = true ↔
      (getTime t.startDate ≤ getTime (getYearEnd y) ∧
        getTime (getYearStart y) ≤ getTime t.endDate)) ∧
    (getTime t.startDate = getTime (getQuarterEnd y q) → isTaskInQuarter t y q = true) ∧
    (epochDay t.endDate = epochDay (getQuarterStart y q) - 1 →
      isTaskInQuarter t y q = false) ∧
    (getTime t.startDate = getTime (getYearEnd y) → isTaskInYear t y = true) ∧
    (epochDay t.endDate = epochDay (getYearStart y) - 1 → isTaskInYear t y = false) := by
  have hse := quarterStart_le_quarterEnd y q hq
  have hye := yearStart_le_yearEnd y
  simp only [isTaskInQuarter, isTaskInYear, Bool.and_eq_true, decide_eq_true_eq,
    Bool.and_eq_false_iff, decide_eq_false_iff_not, not_le, getTime, msPerDay] at *
  refine ⟨trivial, trivial, ?_, ?_, ?_, ?_⟩ <;> intro h <;> omega

theorem claim2_witness :
    (isTaskInQuarter (Task.mk [] [] ⟨2024, 2, 31⟩ ⟨2024, 3, 4⟩ none) 2024 1 = true ↔
      (getTime (⟨2024, 2, 31⟩ : JsDate) ≤ getTime (getQuarterEnd 2024 1) ∧
        getTime (getQuarterStart 2024 1) ≤ getTime (⟨2024, 3, 4⟩ : JsDate))) ∧
    (isTaskInYear (Task.mk [] [] ⟨2024, 2, 31⟩ ⟨2024, 3, 4⟩ none) 2024 = true ↔
      (getTime (⟨2024, 2, 31⟩ : JsDate) ≤ getTime (getYearEnd 2024) ∧
        getTime (getYearStart 2024) ≤ getTime (⟨2024, 3, 4⟩ : JsDate))) ∧
    (getTime (⟨2024, 2, 31⟩ : JsDate) = getTime (getQuarterEnd 2024 1) →
      isTaskInQuarter (Task.mk [] [] ⟨2024, 2, 31⟩ ⟨2024, 3, 4⟩ none) 2024 1 = true) ∧
    (epochDay (⟨2024, 3, 4⟩ : JsDate) = epochDay (getQuarterStart 2024 1) - 1 →
      isTaskInQuarter (Task.mk [] [] ⟨2024, 2, 31⟩ ⟨2024, 3, 4⟩ none) 2024 1 = false) ∧
    (getTime (⟨2024, 2, 31⟩ : JsDate) = getTime (getYearEnd 2024) →
      isTaskInYear (Task.mk [] [] ⟨2024, 2, 31⟩ ⟨2024, 3, 4⟩ none) 2024 = true) ∧
    (epochDay (⟨2024, 3, 4⟩ : JsDate) = epochDay (getYearStart 2024) - 1 →
      isTaskInYear (Task.mk [] [] ⟨2024, 2, 31⟩ ⟨2024, 3, 4⟩ none) 2024 = false) :=
  claim2_visibility_filter (Task.mk [] [] ⟨2024, 2, 31⟩ ⟨2024, 3, 4⟩ none) 2024 1
    (Or.inl rfl) (by decide)

/-!
Lemmas about the row-assignment pass.
-/

theorem overlapsB_comm (a b : TaskBar) : overlapsB a b = overlapsB b a := by
  rw [overlapsB, overlapsB, Bool.and_comm]

theorem overlapsB_row_update (t : TaskBar) (j : Nat) (x : TaskBar) :
    overlapsB { t with row := j } x = overlapsB t x := rfl

theorem findFirstFit_some (rows : List (List (Nat × TaskBar))) (t : TaskBar) (j : Nat)
    (h : findFirstFit rows t = some j) :
    ∃ hj : j < rows.length, rowHasOverlap (rows.get ⟨j, hj⟩) t = false := by
  induction rows generalizing j with
  | nil => simp [findFirstFit] at h
  | cons r rs ih =>
    rw [findFirstFit] at h
    by_cases hov : rowHasOverlap r t
    · rw [if_pos hov] at h
      obtain ⟨j1, hj1, rfl⟩ := Option.map_eq_some'.mp h
      obtain ⟨hlt, hspec⟩ := ih j1 hj1
      exact ⟨by simpa using Nat.succ_lt_succ hlt, hspec⟩
    · rw [if_neg hov] at h
      obtain rfl : (0 : Nat) = j := Option.some.inj h
      exact ⟨Nat.succ_pos _, by simpa using hov⟩

theorem pushAt_length_le (rows : List (List (Nat × TaskBar))) (i : Nat) (p : Nat × TaskBar) :
    rows.length ≤ (pushAt rows i p).length := by
  rw [pushAt]
  split
  · rw [List.length_set]
  · rw [List.length_append]
    omega

theorem pushAt_lt_length (rows : List (List (Nat × TaskBar))) (i : Nat) (p : Nat × TaskBar)
    (h : i ≤ rows.length) : i < (pushAt rows i p).length := by
  rw [pushAt]
  split
  · rw [List.length_set]; omega
  · rw [List.length_append]
    simp only [List.length_cons, List.length_nil]
    omega

theorem pushAt_getElem?_sub (rows : List (List (Nat × TaskBar))) (i : Nat)
    (p : Nat × TaskBar) (k : Nat) (R : List (Nat × TaskBar)) (hR : rows[k]? = some R)
    (x : Nat × TaskBar) (hx : x ∈ R) :
    ∃ R2, (pushAt rows i p)[k]? = some R2 ∧ x ∈ R2 := by
  have hk : k < rows.length := by
    by_contra hk
    rw [List.getElem?_eq_none (by omega)] at hR
    exact Option.noConfusion hR
  rw [pushAt]
  split
  · by_cases hik : k = i
    · subst hik
      refine ⟨rows.get ⟨k, hk⟩ ++ [p], List.getElem?_set_eq_of_lt _ (by omega),
        List.mem_append_left _ ?_⟩
      have h2 : rows.get ⟨k, hk⟩ = R := by
        simpa [List.getElem?_eq_getElem hk] using hR
      rw [h2]
      exact hx
    · exact ⟨R, by rw [List.getElem?_set_ne (fun h2 => hik h2.symm)]; exact hR, hx⟩
  · exact ⟨R, by rw [List.getElem?_append, if_pos hk]; exact hR, hx⟩

theorem pushAt_getElem?_self (rows : List (List (Nat × TaskBar))) (i : Nat)
    (p : Nat × TaskBar) (h : i ≤ rows.length) :
    ∃ R2, (pushAt rows i p)[i]? = some R2 ∧ p ∈ R2 := by
  rw [pushAt]
  split
  · next hlt =>
    refine ⟨rows.get ⟨i, hlt⟩ ++ [p], List.getElem?_set_eq_of_lt _ (by omega), ?_⟩
    exact List.mem_append_right _ (List.mem_singleton_self p)
  · next hge =>
    have hieq : i = rows.length := by omega
    subst hieq
    refine ⟨[p], ?_, List.mem_singleton_self p⟩
    rw [List.getElem?_append_right (le_refl _)]
    simp

theorem rowHasOverlap_false (R : List (Nat × TaskBar)) (t : TaskBar)
    (h : rowHasOverlap R t = false) (x : Nat × TaskBar) (hx : x ∈ R) :
    overlapsB t x.2 = false := by
  rw [rowHasOverlap, List.any_eq_false] at h
  exact Bool.eq_false_iff.mpr (h x hx)

theorem assignLoop_no_conflict (ts : List (Nat × TaskBar)) :
    ∀ (rows : List (List (Nat × TaskBar))) (p : Nat × TaskBar),
      p ∈ assignLoop ts rows →
      ∀ (R : List (Nat × TaskBar)), rows[p.2.row]? = some R →
      ∀ (x : Nat × TaskBar), x ∈ R → overlapsB p.2 x.2 = false := by
  induction ts with
  | nil =>
    intro rows p hp
    simp [assignLoop] at hp
  | cons head ts ih =>
    intro rows p hp R hR x hx
    obtain ⟨i, t⟩ := head
    simp only [assignLoop] at hp
    rcases List.mem_cons.mp hp with rfl | hp2
    · cases hfind : findFirstFit rows t with
      | some j0 =>
        obtain ⟨hlt, hspec⟩ := findFirstFit_some rows t j0 hfind
        simp only [hfind, Option.getD_some] at hR
        have hRe : R = rows.get ⟨j0, hlt⟩ := by
          have := List.getElem?_eq_getElem hlt
          simp only [this] at hR
          exact (Option.some.inj hR).symm
        rw [overlapsB_row_update]
        exact rowHasOverlap_false _ t hspec x (hRe ▸ hx)
      | none =>
        simp only [hfind, Option.getD_none] at hR
        rw [List.getElem?_eq_none (le_refl _)] at hR
        exact Option.noConfusion hR
    · obtain ⟨R2, hR2, hx2⟩ := pushAt_getElem?_sub rows _ _ _ R hR x hx
      exact ih _ p hp2 R2 hR2 x hx2

theorem assignLoop_pairwise (ts : List (Nat × TaskBar)) :
    ∀ (rows : List (List (Nat × TaskBar))) (p q : Nat × TaskBar),
      p ∈ assignLoop ts rows → q ∈ assignLoop ts rows →
      p.1 ≠ q.1 → p.2.row = q.2.row → overlapsB p.2 q.2 = false := by
  induction ts with
  | nil =>
    intro rows p q hp
    simp [assignLoop] at hp
  | cons head ts ih =>
    intro rows p q hp hq hne hrow
    obtain ⟨i, t⟩ := head
    simp only [assignLoop] at hp hq
    have hjle : (findFirstFit rows t).getD rows.length ≤ rows.length := by
      cases hfind : findFirstFit rows t with
      | some j0 =>
        obtain ⟨hlt, _⟩ := findFirstFit_some rows t j0 hfind
        simp only [Option.getD_some]
        omega
      | none => simp only [Option.getD_none, le_refl]
    obtain ⟨R2, hR2, hmem⟩ := pushAt_getElem?_self rows _
      (i, { t with row := (findFirstFit rows t).getD rows.length }) hjle
    rcases List.mem_cons.mp hp with rfl | hp2 <;> rcases List.mem_cons.mp hq with heq | hq2
    · exact absurd (congrArg Prod.fst heq).symm hne
    · have hrow2 : (findFirstFit rows t).getD rows.length = q.2.row := by
        simpa using hrow
      rw [hrow2] at hR2 hq2 hmem
      have h := assignLoop_no_conflict ts _ q hq2 R2 hR2 _ hmem
      exact (overlapsB_comm _ _).trans h
    · have hrow2 : (findFirstFit rows t).getD rows.length = p.2.row := by
        rw [heq] at hrow
        simpa using hrow.symm
      rw [hrow2] at hR2 hp2 hmem
      have h := assignLoop_no_conflict ts _ p hp2 R2 hR2 _ hmem
      rw [heq]
      exact h
    · exact ih _ p q hp2 hq2 hne hrow

theorem assignLoop_map_fst (ts : List (Nat × TaskBar)) :
    ∀ rows, (assignLoop ts rows).map Prod.fst = ts.map Prod.fst := by
  induction ts with
  | nil => intro rows; rfl
  | cons head ts ih =>
    intro rows
    obtain ⟨i, t⟩ := head
    simp only [assignLoop, List.map_cons]
    rw [ih]

theorem assignLoop_mem_shape (ts : List (Nat × TaskBar)) :
    ∀ rows p, p ∈ assignLoop ts rows →
      ∃ c, (p.1, c) ∈ ts ∧ p.2 = { c with row := p.2.row } := by
  induction ts with
  | nil =>
    intro rows p hp
    simp [assignLoop] at hp
  | cons head ts ih =>
    intro rows p hp
    obtain ⟨i, t⟩ := head
    simp only [assignLoop] at hp
    rcases List.mem_cons.mp hp with rfl | hp2
    · exact ⟨t, List.mem_cons_self _ _, rfl⟩
    · obtain ⟨c, hc, he⟩ := ih _ p hp2
      exact ⟨c, List.mem_cons_of_mem _ hc, he⟩

theorem insertByStart_perm (x : Nat × TaskBar) (l : List (Nat × TaskBar)) :
    List.Perm (insertByStart x l) (x :: l) := by
  induction l with
  | nil => exact List.Perm.refl _
  | cons y ys ih =>
    rw [insertByStart]
    split
    · exact (ih.cons y).trans (List.Perm.swap x y ys)
    · exact List.Perm.refl _

theorem sortByStart_perm (l : List (Nat × TaskBar)) : List.Perm (sortByStart l) l := by
  induction l with
  | nil => exact List.Perm.refl _
  | cons x xs ih => exact (insertByStart_perm x (sortByStart xs)).trans (ih.cons x)

theorem layoutAssigned_find (tasks : List Task) (y q : Int) (i : Nat) (bar : TaskBar)
    (hmem : (i, bar) ∈ (layoutBars tasks y q).enum) :
    (layoutAssigned tasks y q).find? (fun p => p.1 = i) =
      some (i, { bar with row :=
        (((layoutAssigned tasks y q).find? (fun p => p.1 = i)).getD (i, bar)).2.row }) := by
  have hperm : List.Perm (sortByStart (layoutBars tasks y q).enum)
      ((layoutBars tasks y q).enum) := sortByStart_perm _
  have hkeys : (layoutAssigned tasks y q).map Prod.fst =
      (sortByStart (layoutBars tasks y q).enum).map Prod.fst :=
    assignLoop_map_fst _ _
  have hiKey : i ∈ (layoutAssigned tasks y q).map Prod.fst := by
    rw [hkeys]
    exact (hperm.map Prod.fst).mem_iff.mpr (List.mem_map_of_mem Prod.fst hmem)
  obtain ⟨pr, hpr_mem, hpr_fst⟩ := List.mem_map.mp hiKey
  have hsome : ((layoutAssigned tasks y q).find? (fun p => p.1 = i)).isSome := by
    rw [List.find?_isSome]
    exact ⟨pr, hpr_mem, by simp [hpr_fst]⟩
  obtain ⟨fnd, hfnd⟩ := Option.isSome_iff_exists.mp hsome
  have hfnd_mem : fnd ∈ layoutAssigned tasks y q := List.mem_of_find?_eq_some hfnd
  have hfnd_fst : fnd.1 = i := by
    have := List.find?_some hfnd
    simpa using this
  obtain ⟨c, hc_mem, hc_eq⟩ := assignLoop_mem_shape _ _ fnd hfnd_mem
  have hc_enum : (i, c) ∈ (layoutBars tasks y q).enum := by
    rw [← hfnd_fst]
    exact hperm.mem_iff.mp hc_mem
  have hc_bar : c = bar := by
    have h1 := List.mem_enum_iff_get?.mp hc_enum
    have h2 := List.mem_enum_iff_get?.mp hmem
    simp only at h1 h2
    rw [h1] at h2
    exact Option.some.inj h2
  have hfe : fnd = (i, { bar with row := fnd.2.row }) := by
    have h0 : fnd = (fnd.1, fnd.2) := rfl
    rw [h0, hfnd_fst, hc_eq, hc_bar]
  rw [hfnd]
  simp only [Option.getD_some]
  exact congrArg some hfe

theorem taskBars_length (tasks : List Task) (y q : Int) :
    (taskBars tasks y q).length = (quarterTasks tasks y q).length := by
  rw [taskBars]
  split
  · next h => rw [List.length_nil, h]
  · rw [List.length_map, List.enum_length, layoutBars, List.length_map]

theorem taskBars_get_assigned (tasks : List Task) (y q : Int) (i : Nat)
    (hi : i < (taskBars tasks y q).length) :
    (i, (taskBars tasks y q).get ⟨i, hi⟩) ∈ layoutAssigned tasks y q := by
  have hib : i < (layoutBars tasks y q).length := by
    have := taskBars_length tasks y q
    rw [layoutBars, List.length_map]
    omega
  have hmem : (i, (layoutBars tasks y q).get ⟨i, hib⟩) ∈ (layoutBars tasks y q).enum := by
    rw [List.mem_enum_iff_get?]
    simp [List.get?_eq_getElem?, List.getElem?_eq_getElem hib]
  have hne0 : ¬ ((quarterTasks tasks y q).length = 0) := by
    have := taskBars_length tasks y q
    omega
  have hget : (taskBars tasks y q).get ⟨i, hi⟩ =
      match (layoutAssigned tasks y q).find? (fun p2 => p2.1 = i) with
      | some q2 => { (layoutBars tasks y q).get ⟨i, hib⟩ with row := q2.2.row }
      | none => (layoutBars tasks y q).get ⟨i, hib⟩ := by
    have h2 : ((layoutBars tasks y q).enum)[i]? =
        some (i, (layoutBars tasks y q).get ⟨i, hib⟩) := by
      rw [← List.get?_eq_getElem?, List.get?_enum]
      simp [List.get?_eq_getElem?, List.getElem?_eq_getElem hib]
    have h1 : (taskBars tasks y q)[i]? = some ((fun p =>
        match (layoutAssigned tasks y q).find? (fun q2 => q2.1 = p.1) with
        | some q2 => { p.2 with row := q2.2.row }
        | none => p.2) (i, (layoutBars tasks y q).get ⟨i, hib⟩)) := by
      rw [taskBars, if_neg hne0, List.getElem?_map, h2, Option.map_some']
    rw [List.getElem?_eq_getElem hi] at h1
    rw [List.get_eq_getElem]
    exact Option.some.inj h1
  cases hfind0 : (layoutAssigned tasks y q).find? (fun p2 => p2.1 = i) with
  | none =>
    have hfind := layoutAssigned_find tasks y q i _ hmem
    rw [hfind0] at hfind
    exact Option.noConfusion hfind
  | some fnd =>
    have hfind := layoutAssigned_find tasks y q i _ hmem
    rw [hfind0] at hfind
    simp only [Option.getD_some] at hfind
    have hfe := Option.some.inj hfind
    rw [hget, hfind0]
    simp only
    rw [← hfe]
    exact List.mem_of_find?_eq_some hfind0

/-- C1: any two bars at distinct positions of the returned TaskBar list
that share a row index have non-overlapping task date ranges — the
closed-interval test `a.startDate <= b.endDate AND b.startDate <= a.endDate`
fails for the pair. -/
theorem claim1_no_overlap_per_row (tasks : List Task) (y q : Int) (i j : Nat)
    (hi : i < (taskBars tasks y q).length) (hj : j < (taskBars tasks y q).length)
    (hne : i ≠ j)
    (hrow : ((taskBars tasks y q).get ⟨i, hi⟩).row = ((taskBars tasks y q).get ⟨j, hj⟩).row) :
    ¬(getTime ((taskBars tasks y q).get ⟨i, hi⟩).startDate ≤
        getTime ((taskBars tasks y q).get ⟨j, hj⟩).endDate ∧
      getTime ((taskBars tasks y q).get ⟨j, hj⟩).startDate ≤
        getTime ((taskBars tasks y q).get ⟨i, hi⟩).endDate) := by
  have ha := taskBars_get_assigned tasks y q i hi
  have hb := taskBars_get_assigned tasks y q j hj
  have hov := assignLoop_pairwise _ _ _ _ ha hb hne hrow
  rintro ⟨h1, h2⟩
  rw [overlapsB] at hov
  simp only [decide_eq_true h1, decide_eq_true h2, Bool.and_self] at hov
  exact Bool.true_eq_false.mp hov

theorem claim1_witness :
    ¬(getTime (((taskBars
        [Task.mk ("1".toList) ("A".toList) ⟨2024, 0, 1⟩ ⟨2024, 0, 10⟩ none,
         Task.mk ("2".toList) ("B".toList) ⟨2024, 0, 5⟩ ⟨2024, 0, 15⟩ none,
         Task.mk ("3".toList) ("C".toList) ⟨2024, 0, 20⟩ ⟨2024, 0, 25⟩ none] 2024 1).get
          ⟨0, by decide⟩).startDate) ≤
      getTime (((taskBars
        [Task.mk ("1".toList) ("A".toList) ⟨2024, 0, 1⟩ ⟨2024, 0, 10⟩ none,
         Task.mk ("2".toList) ("B".toList) ⟨2024, 0, 5⟩ ⟨2024, 0, 15⟩ none,
         Task.mk ("3".toList) ("C".toList) ⟨2024, 0, 20⟩ ⟨2024, 0, 25⟩ none] 2024 1).get
          ⟨2, by decide⟩).endDate) ∧
      getTime (((taskBars
        [Task.mk ("1".toList) ("A".toList) ⟨2024, 0, 1⟩ ⟨2024, 0, 10⟩ none,
         Task.mk ("2".toList) ("B".toList) ⟨2024, 0, 5⟩ ⟨2024, 0, 15⟩ none,
         Task.mk ("3".toList) ("C".toList) ⟨2024, 0, 20⟩ ⟨2024, 0, 25⟩ none] 2024 1).get
          ⟨2, by decide⟩).startDate) ≤
      getTime (((taskBars
        [Task.mk ("1".toList) ("A".toList) ⟨2024, 0, 1⟩ ⟨2024, 0, 10⟩ none,
         Task.mk ("2".toList) ("B".toList) ⟨2024, 0, 5⟩ ⟨2024, 0, 15⟩ none,
         Task.mk ("3".toList) ("C".toList) ⟨2024, 0, 20⟩ ⟨2024, 0, 25⟩ none] 2024 1).get
          ⟨0, by decide⟩).endDate)) :=
  claim1_no_overlap_per_row
    [Task.mk ("1".toList) ("A".toList) ⟨2024, 0, 1⟩ ⟨2024, 0, 10⟩ none,
     Task.mk ("2".toList) ("B".toList) ⟨2024, 0, 5⟩ ⟨2024, 0, 15⟩ none,
     Task.mk ("3".toList) ("C".toList) ⟨2024, 0, 20⟩ ⟨2024, 0, 25⟩ none] 2024 1
    0 2 (by decide) (by decide) (by decide) (by decide)

theorem taskBars_get_shape (tasks : List Task) (y q : Int) (i : Nat)
    (hi : i < (taskBars tasks y q).length) (hv : i < (quarterTasks tasks y q).length) :
    ∃ r : Nat, (taskBars tasks y q).get ⟨i, hi⟩ =
      { mkTaskBar (getQuarterStart y q) (getQuarterEnd y q) (timelineTotalDays y q)
          ((quarterTasks tasks y q).get ⟨i, hv⟩) with row := r } := by
  have hib : i < (layoutBars tasks y q).length := by
    rw [layoutBars, List.length_map]
    omega
  have hne0 : ¬ ((quarterTasks tasks y q).length = 0) := by omega
  have hbar : (layoutBars tasks y q).get ⟨i, hib⟩ =
      mkTaskBar (getQuarterStart y q) (getQuarterEnd y q) (timelineTotalDays y q)
        ((quarterTasks tasks y q).get ⟨i, hv⟩) := by
    simp [layoutBars, List.get_eq_getElem, List.getElem_map]
  have h2 : ((layoutBars tasks y q).enum)[i]? =
      some (i, (layoutBars tasks y q).get ⟨i, hib⟩) := by
    rw [← List.get?_eq_getElem?, List.get?_enum]
    simp [List.get?_eq_getElem?, List.getElem?_eq_getElem hib]
  have h1 : (taskBars tasks y q)[i]? = some ((fun p =>
      match (layoutAssigned tasks y q).find? (fun q2 => q2.1 = p.1) with
      | some q2 => { p.2 with row := q2.2.row }
      | none => p.2) (i, (layoutBars tasks y q).get ⟨i, hib⟩)) := by
    rw [taskBars, if_neg hne0, List.getElem?_map, h2, Option.map_some']
  rw [List.getElem?_eq_getElem hi] at h1
  have hget := Option.some.inj h1
  rw [List.get_eq_getElem, hget]
  dsimp only
  cases (layoutAssigned tasks y q).find? (fun q2 => q2.1 = i) with
  | none =>
    refine ⟨((layoutBars tasks y q).get ⟨i, hib⟩).row, ?_⟩
    rw [hbar]
  | some fnd =>
    refine ⟨fnd.2.row, ?_⟩
    rw [hbar]

theorem mkTaskBar_width (tlS tlE : JsDate) (n : Int) (t : Task) :
    (mkTaskBar tlS tlE n t).width =
      max (((min (epochDay t.endDate) (epochDay tlE) -
          max (epochDay t.startDate) (epochDay tlS) + 1 : Int) : ℚ) / (n : ℚ) * 100) 1 := by
  have hdur : jsCeilDiv
      (getTime (if getTime tlE < getTime t.endDate then tlE else t.endDate) -
        getTime (if getTime t.startDate < getTime tlS then tlS else t.startDate))
      msPerDay + 1 =
      min (epochDay t.endDate) (epochDay tlE) - max (epochDay t.startDate) (epochDay tlS) + 1 := by
    simp only [getTime, jsCeilDiv, msPerDay]
    split_ifs <;> omega
  simp only [mkTaskBar]
  rw [hdur]

theorem timelineTotalDays_eq (y q : Int) :
    timelineTotalDays y q = epochDay (getQuarterEnd y q) - epochDay (getQuarterStart y q) + 1 := by
  rw [timelineTotalDays]
  simp only [getTime, jsCeilDiv, msPerDay]
  omega

/-- C3: every returned bar's width is
`max((durationDays / totalDays) * 100, 1)` — `durationDays` the inclusive
day count of the task's range clamped to the quarter, `totalDays` the
inclusive day count of the quarter — and in particular is at least 1. -/
theorem claim3_width_floor (tasks : List Task) (y q : Int) (i : Nat)
    (hi : i < (taskBars tasks y q).length) :
    ((taskBars tasks y q).get ⟨i, hi⟩).width =
      max (((min (epochDay ((taskBars tasks y q).get ⟨i, hi⟩).endDate)
            (epochDay (getQuarterEnd y q)) -
          max (epochDay ((taskBars tasks y q).get ⟨i, hi⟩).startDate)
            (epochDay (getQuarterStart y q)) + 1 : Int) : ℚ) /
        ((epochDay (getQuarterEnd y q) - epochDay (getQuarterStart y q) + 1 : Int) : ℚ) *
        100) 1 ∧
    1 ≤ ((taskBars tasks y q).get ⟨i, hi⟩).width := by
  have hv : i < (quarterTasks tasks y q).length := by
    have := taskBars_length tasks y q
    omega
  obtain ⟨r, hr⟩ := taskBars_get_shape tasks y q i hi hv
  rw [hr]
  simp only
  rw [mkTaskBar_width]
  simp only [mkTaskBar]
  rw [timelineTotalDays_eq]
  exact ⟨rfl, le_max_right _ _⟩

theorem claim3_witness :
    1 ≤ ((taskBars [Task.mk ("1".toList) ("A".toList) ⟨2024, 0, 5⟩ ⟨2024, 0, 5⟩ none]
        2024 1).get ⟨0, by decide⟩).width :=
  (claim3_width_floor [Task.mk ("1".toList) ("A".toList) ⟨2024, 0, 5⟩ ⟨2024, 0, 5⟩ none]
    2024 1 0 (by decide)).2

/-- C10: the layout engine returns exactly one bar per visible task, in
order, and each bar carries the task's id, name, startDate, endDate and
color unchanged; layout results live only in the fresh TaskBar records. -/
theorem claim10_bars_preserve_tasks (tasks : List Task) (y q : Int) (i : Nat)
    (hi : i < (taskBars tasks y q).length) (hv : i < (quarterTasks tasks y q).length) :
    (taskBars tasks y q).length = (quarterTasks tasks y q).length ∧
    ((taskBars tasks y q).get ⟨i, hi⟩).id = ((quarterTasks tasks y q).get ⟨i, hv⟩).id ∧
    ((taskBars tasks y q).get ⟨i, hi⟩).name = ((quarterTasks tasks y q).get ⟨i, hv⟩).name ∧
    ((taskBars tasks y q).get ⟨i, hi⟩).startDate =
      ((quarterTasks tasks y q).get ⟨i, hv⟩).startDate ∧
    ((taskBars tasks y q).get ⟨i, hi⟩).endDate =
      ((quarterTasks tasks y q).get ⟨i, hv⟩).endDate ∧
    ((taskBars tasks y q).get ⟨i, hi⟩).color = ((quarterTasks tasks y q).get ⟨i, hv⟩).color := by
  obtain ⟨r, hr⟩ := taskBars_get_shape tasks y q i hi hv
  rw [hr]
  refine ⟨taskBars_length tasks y q, ?_, ?_, ?_, ?_, ?_⟩ <;> simp [mkTaskBar]

theorem claim10_witness :
    (taskBars [Task.mk ("1".toList) ("A".toList) ⟨2024, 0, 5⟩ ⟨2024, 1, 5⟩ none] 2024 1).length =
      (quarterTasks [Task.mk ("1".toList) ("A".toList) ⟨2024, 0, 5⟩ ⟨2024, 1, 5⟩ none]
        2024 1).length ∧
    ((taskBars [Task.mk ("1".toList) ("A".toList) ⟨2024, 0, 5⟩ ⟨2024, 1, 5⟩ none] 2024 1).get
        ⟨0, by decide⟩).id =
      ((quarterTasks [Task.mk ("1".toList) ("A".toList) ⟨2024, 0, 5⟩ ⟨2024, 1, 5⟩ none]
        2024 1).get ⟨0, by decide⟩).id :=
  ⟨(claim10_bars_preserve_tasks
      [Task.mk ("1".toList) ("A".toList) ⟨2024, 0, 5⟩ ⟨2024, 1, 5⟩ none] 2024 1 0
      (by decide) (by decide)).1,
   (claim10_bars_preserve_tasks
      [Task.mk ("1".toList) ("A".toList) ⟨2024, 0, 5⟩ ⟨2024, 1, 5⟩ none] 2024 1 0
      (by decide) (by decide)).2.1⟩

theorem jsMakeDate_of_valid (t : JsDate) (ht : ValidDate t)
    (hy : ¬(0 ≤ t.year ∧ t.year ≤ 99)) : jsMakeDate t.year t.month t.day = t := by
  obtain ⟨hm0, hm1, hd1, hd2⟩ := ht
  rw [jsMakeDate]
  simp only [if_neg hy]
  have h1 : t.month / 12 = 0 := by omega
  have h2 : t.month % 12 = t.month := by omega
  rw [h1, h2, add_zero, normDays_id t.year t.month t.day hm0 hm1 hd1 hd2]

theorem getWeekNumber_eq_iso (t : JsDate) (ht : ValidDate t)
    (hy : ¬(0 ≤ t.year ∧ t.year ≤ 99)) : getWeekNumber t = isoWeekNumber t := by
  have hmk := jsMakeDate_of_valid t ht hy
  have hdn : (if (epochDay t + 4) % 7 = 0 then (7 : Int) else (epochDay t + 4) % 7) =
      (epochDay t + 3) % 7 + 1 := by omega
  rw [getWeekNumber, isoWeekNumber]
  simp only [hmk, hdn, isoFirstThursday]
  obtain ⟨hv, he⟩ := addDays_spec t (4 - ((epochDay t + 3) % 7 + 1)) ht
  omega

theorem buildWeeksGo_spec (s e : JsDate) (fuel : Nat) :
    ∀ (cur : JsDate), ValidDate cur →
      epochDay e < epochDay cur + 7 * fuel →
      (buildWeeksGo fuel s e cur).length = ((epochDay e - epochDay cur) / 7 + 1).toNat ∧
      ∀ (k : Nat) (w : WeekInfo), (buildWeeksGo fuel s e cur)[k]? = some w →
        ValidDate w.startDate ∧
        epochDay w.startDate = epochDay cur + 7 * k ∧
        w.weekNumber = getWeekNumber w.startDate ∧
        w.days = min (epochDay cur + 7 * k + 6) (epochDay e) -
          max (epochDay cur + 7 * k) (epochDay s) + 1 := by
  induction fuel with
  | zero =>
    intro cur hcur hfuel
    refine ⟨by simp only [buildWeeksGo, List.length_nil]; omega, ?_⟩
    intro k w hw
    simp [buildWeeksGo] at hw
  | succ fuel ih =>
    intro cur hcur hfuel
    obtain ⟨hv7, he7⟩ := addDays_spec cur 7 hcur
    by_cases hle : getTime cur ≤ getTime e
    · have hlee : epochDay cur ≤ epochDay e := (getTime_le_getTime cur e).mp hle
      obtain ⟨ihlen, ihget⟩ := ih (addDays cur 7) hv7 (by push_cast; push_cast at hfuel; omega)
      simp only [buildWeeksGo, if_pos hle]
      constructor
      · rw [List.length_cons, ihlen, he7]
        push_cast at hfuel ⊢
        omega
      · intro k w hw
        cases k with
        | zero =>
          rw [List.getElem?_cons_zero] at hw
          obtain rfl := Option.some.inj hw
          refine ⟨hcur, by simp, rfl, ?_⟩
          simp only [getTime, msPerDay] at hle ⊢
          omega
        | succ k2 =>
          rw [List.getElem?_cons_succ] at hw
          obtain ⟨g1, g2, g3, g4⟩ := ihget k2 w hw
          refine ⟨g1, by rw [g2, he7]; push_cast; ring, g3, ?_⟩
          rw [g4, he7]
          push_cast
          omega
    · have hlee : ¬ (epochDay cur ≤ epochDay e) := fun h =>
        hle ((getTime_le_getTime cur e).mpr h)
      simp only [buildWeeksGo, if_neg hle]
      refine ⟨by simp only [List.length_nil]; omega, ?_⟩
      intro k w hw
      simp at hw

/-- C7 (amended): for a period with ordered bounds, the weeks list starts
at the Monday on or before the period start (epoch `M`), steps by 7 days,
and has one entry per Monday that is at most the period end; each entry's
day count is the number of days of its 7-day span inside the period
(between 1 and 7, exactly 7 when unclipped); and each entry's week number
is the ISO-8601 week number of its Monday whenever that Monday's civil
year is outside 0–99 (inside that range `Date.UTC`'s two-digit-year rule
makes the source compute the week number of the 1900-shifted date). -/
theorem claim7_week_breakdown (s e : JsDate) (hs : ValidDate s)
    (hse : epochDay s ≤ epochDay e) :
    (buildWeeks s e).length =
      ((epochDay e - (epochDay s - (epochDay s + 3) % 7)) / 7 + 1).toNat ∧
    (epochDay s - (epochDay s + 3) % 7 ≤ epochDay s ∧
      epochDay s ≤ epochDay s - (epochDay s + 3) % 7 + 6 ∧
      ((epochDay s - (epochDay s + 3) % 7) + 3) % 7 + 1 = 1) ∧
    ∀ (k : Nat) (w : WeekInfo), (buildWeeks s e)[k]? = some w →
      ValidDate w.startDate ∧
      epochDay w.startDate = (epochDay s - (epochDay s + 3) % 7) + 7 * k ∧
      epochDay w.startDate ≤ epochDay e ∧
      w.days = min (epochDay w.startDate + 6) (epochDay e) -
        max (epochDay w.startDate) (epochDay s) + 1 ∧
      w.days = ((Finset.Icc (epochDay w.startDate) (epochDay w.startDate + 6) ∩
        Finset.Icc (epochDay s) (epochDay e)).card : Int) ∧
      1 ≤ w.days ∧ w.days ≤ 7 ∧
      (epochDay s ≤ epochDay w.startDate ∧ epochDay w.startDate + 6 ≤ epochDay e →
        w.days = 7) ∧
      (¬(0 ≤ w.startDate.year ∧ w.startDate.year ≤ 99) →
        w.weekNumber = isoWeekNumber w.startDate) := by
  have hdiff : (if (epochDay s + 4) % 7 = 0 then (-6 : Int) else 1 - (epochDay s + 4) % 7) =
      -((epochDay s + 3) % 7) := by omega
  simp only [buildWeeks, hdiff]
  obtain ⟨hvf, hef⟩ := addDays_spec s (-((epochDay s + 3) % 7)) hs
  have hm0 : 0 ≤ (epochDay s + 3) % 7 ∧ (epochDay s + 3) % 7 < 7 := by omega
  have hfuel : epochDay e < epochDay (addDays s (-((epochDay s + 3) % 7))) +
      7 * (((epochDay e - epochDay (addDays s (-((epochDay s + 3) % 7)))) / 7 + 1).toNat : Int) := by
    rw [hef]
    omega
  obtain ⟨hlen, hget⟩ := buildWeeksGo_spec s e _ (addDays s (-((epochDay s + 3) % 7))) hvf hfuel
  refine ⟨by rw [hlen, hef]; omega, ⟨by omega, by omega, by omega⟩, ?_⟩
  intro k w hw
  have hk : k < (buildWeeksGo (((epochDay e - epochDay (addDays s (-((epochDay s + 3) % 7)))) /
      7 + 1).toNat) s e (addDays s (-((epochDay s + 3) % 7)))).length := by
    rcases List.getElem?_eq_some.mp hw with ⟨h, _⟩
    exact h
  rw [hlen, hef] at hk
  obtain ⟨g1, g2, g3, g4⟩ := hget k w hw
  rw [hef] at g2 g4
  have hkE : (epochDay s - (epochDay s + 3) % 7) + 7 * k ≤ epochDay e := by omega
  have hbounds : max (epochDay w.startDate) (epochDay s) ≤
      min (epochDay w.startDate + 6) (epochDay e) := by omega
  have hcard : ((Finset.Icc (epochDay w.startDate) (epochDay w.startDate + 6) ∩
      Finset.Icc (epochDay s) (epochDay e)).card : Int) =
      min (epochDay w.startDate + 6) (epochDay e) -
        max (epochDay w.startDate) (epochDay s) + 1 := by
    have hic : Finset.Icc (epochDay w.startDate) (epochDay w.startDate + 6) ∩
        Finset.Icc (epochDay s) (epochDay e) =
        Finset.Icc (max (epochDay w.startDate) (epochDay s))
          (min (epochDay w.startDate + 6) (epochDay e)) := by
      ext x
      simp only [Finset.mem_inter, Finset.mem_Icc]
      omega
    rw [hic, Int.card_Icc]
    omega
  refine ⟨g1, g2, by omega, by rw [g4, g2], by rw [hcard, g4, g2], ?_, ?_, ?_, ?_⟩
  · omega
  · omega
  · intro hin
    omega
  · intro hyq
    rw [g3]
    exact getWeekNumber_eq_iso w.startDate g1 hyq

/-- C7, counterexample: in the Q1 period of year 100 the first week starts
on Monday 0099-12-28, a two-digit civil year, so `Date.UTC` shifts it to
1999-12-28 and the source computes week number 52, while the ISO-8601 week
number of 0099-12-28 is 53. -/
theorem claim7_counterexample :
    ((buildWeeks (getQuarterStart 100 1) (getQuarterEnd 100 1)).get
        ⟨0, by decide⟩).startDate = ⟨99, 11, 28⟩ ∧
    ((buildWeeks (getQuarterStart 100 1) (getQuarterEnd 100 1)).get
        ⟨0, by decide⟩).weekNumber = 52 ∧
    isoWeekNumber (((buildWeeks (getQuarterStart 100 1) (getQuarterEnd 100 1)).get
        ⟨0, by decide⟩).startDate) = 53 := by
  decide

theorem claim7_witness :
    (buildWeeks ⟨2024, 0, 1⟩ ⟨2024, 2, 31⟩).length =
      ((epochDay ⟨2024, 2, 31⟩ -
        (epochDay ⟨2024, 0, 1⟩ - (epochDay ⟨2024, 0, 1⟩ + 3) % 7)) / 7 + 1).toNat :=
  (claim7_week_breakdown ⟨2024, 0, 1⟩ ⟨2024, 2, 31⟩ (by decide) (by decide)).1

/-!
Lemmas for the parse/format round trip (C9): values and character classes
of the decimal renderings, and the behaviour of split, trim and parseInt
on canonical date strings.
-/

/-- The ten decimal digit characters. -/
def digitChars : List Char :=
  ['0', '1', '2', '3', '4', '5', '6', '7', '8', '9']

theorem digit_cases (c : Char) (hc : c ∈ digitChars) :
    c = '0' ∨ c = '1' ∨ c = '2' ∨ c = '3' ∨ c = '4' ∨ c = '5' ∨
      c = '6' ∨ c = '7' ∨ c = '8' ∨ c = '9' := by
  simpa [digitChars] using hc

theorem digit_isDigit (c : Char) (hc : c ∈ digitChars) : c.isDigit = true := by
  rcases digit_cases c hc with rfl | rfl | rfl | rfl | rfl | rfl | rfl | rfl | rfl | rfl <;>
    decide

theorem digit_not_space (c : Char) (hc : c ∈ digitChars) :
    isTrimmedSpace c = false := by
  rcases digit_cases c hc with rfl | rfl | rfl | rfl | rfl | rfl | rfl | rfl | rfl | rfl <;>
    decide

theorem digit_ne_minus (c : Char) (hc : c ∈ digitChars) : c ≠ '-' := by
  rcases digit_cases c hc with rfl | rfl | rfl | rfl | rfl | rfl | rfl | rfl | rfl | rfl <;>
    decide

theorem digit_ne_plus (c : Char) (hc : c ∈ digitChars) : c ≠ '+' := by
  rcases digit_cases c hc with rfl | rfl | rfl | rfl | rfl | rfl | rfl | rfl | rfl | rfl <;>
    decide

theorem ofNat_digit_mem (k : Nat) (hk : k < 10) : Char.ofNat (48 + k) ∈ digitChars := by
  interval_cases k <;> decide

theorem ofNat_digit_toNat (k : Nat) (hk : k < 10) : (Char.ofNat (48 + k)).toNat = 48 + k := by
  interval_cases k <;> decide

/-- The digit fold of `parseDigits`, with an explicit accumulator. -/
def digitsValFrom (a : Nat) (l : List Char) : Nat :=
  l.foldl (fun acc c => acc * 10 + (c.toNat - 48)) a

theorem digitsValFrom_nil (a : Nat) : digitsValFrom a [] = a := rfl

theorem digitsValFrom_cons (a : Nat) (c : Char) (l : List Char) :
    digitsValFrom a (c :: l) = digitsValFrom (a * 10 + (c.toNat - 48)) l := rfl

theorem digitsValFrom_append (a : Nat) (l1 l2 : List Char) :
    digitsValFrom a (l1 ++ l2) = digitsValFrom (digitsValFrom a l1) l2 :=
  List.foldl_append _ _ _ _

theorem digitsValFrom_replicate_zero (k : Nat) :
    digitsValFrom 0 (List.replicate k '0') = 0 := by
  induction k with
  | zero => rfl
  | succ k ih =>
    rw [List.replicate_succ, digitsValFrom_cons]
    have h0 : (0 : Nat) * 10 + ('0'.toNat - 48) = 0 := by decide
    rw [h0, ih]

theorem natToCharsGo_mem (fuel : Nat) :
    ∀ n, n < fuel → ∀ c ∈ natToCharsGo fuel n, c ∈ digitChars := by
  induction fuel with
  | zero => intro n h; exact absurd h (Nat.not_lt_zero n)
  | succ fuel ih =>
    intro n h c hc
    rw [natToCharsGo] at hc
    by_cases h10 : n < 10
    · rw [if_pos h10] at hc
      rcases List.mem_singleton.mp hc with rfl
      exact ofNat_digit_mem n h10
    · rw [if_neg h10] at hc
      rcases List.mem_append.mp hc with h1 | h1
      · exact ih (n / 10) (by omega) c h1
      · rcases List.mem_singleton.mp h1 with rfl
        exact ofNat_digit_mem (n % 10) (Nat.mod_lt n (by norm_num))

theorem natToCharsGo_ne_nil (fuel n : Nat) (h : n < fuel) : natToCharsGo fuel n ≠ [] := by
  cases fuel with
  | zero => exact absurd h (Nat.not_lt_zero n)
  | succ fuel =>
    rw [natToCharsGo]
    split
    · exact List.cons_ne_nil _ _
    · simp

theorem natToCharsGo_val (fuel : Nat) : ∀ n a, n < fuel →
    digitsValFrom a (natToCharsGo fuel n) =
      a * 10 ^ (natToCharsGo fuel n).length + n := by
  induction fuel with
  | zero => intro n a h; exact absurd h (Nat.not_lt_zero n)
  | succ fuel ih =>
    intro n a h
    rw [natToCharsGo]
    split
    next h10 =>
      rw [digitsValFrom_cons, digitsValFrom_nil, ofNat_digit_toNat n h10,
        List.length_singleton, pow_one]
      omega
    next h10 =>
      have hlt : n / 10 < fuel := by omega
      rw [digitsValFrom_append, ih (n / 10) a hlt, digitsValFrom_cons, digitsValFrom_nil,
        ofNat_digit_toNat (n % 10) (Nat.mod_lt n (by norm_num)), List.length_append,
        List.length_singleton, pow_succ, ← mul_assoc]
      generalize a * 10 ^ (natToCharsGo fuel (n / 10)).length = P
      omega

theorem natToCharsGo_fuel : ∀ f1 f2 n, n < f1 → n < f2 →
    natToCharsGo f1 n = natToCharsGo f2 n := by
  intro f1
  induction f1 with
  | zero => intro f2 n h; exact absurd h (Nat.not_lt_zero n)
  | succ f1 ih =>
    intro f2 n h1 h2
    cases f2 with
    | zero => exact absurd h2 (Nat.not_lt_zero n)
    | succ f2 =>
      simp only [natToCharsGo]
      by_cases h10 : n < 10
      · simp only [if_pos h10]
      · simp only [if_neg h10]
        rw [ih f2 (n / 10) (by omega) (by omega)]

theorem natToChars_mem (n : Nat) (c : Char) (hc : c ∈ natToChars n) : c ∈ digitChars :=
  natToCharsGo_mem (n + 1) n (Nat.lt_succ_self n) c hc

theorem natToChars_ne_nil (n : Nat) : natToChars n ≠ [] :=
  natToCharsGo_ne_nil (n + 1) n (Nat.lt_succ_self n)

theorem natToChars_val (n : Nat) : digitsValFrom 0 (natToChars n) = n := by
  have h := natToCharsGo_val (n + 1) n 0 (Nat.lt_succ_self n)
  rw [natToChars]
  simpa using h

theorem natToChars_step (n : Nat) (h : 10 ≤ n) :
    natToChars n = natToChars (n / 10) ++ [Char.ofNat (48 + n % 10)] := by
  simp only [natToChars]
  rw [natToCharsGo, if_neg (by omega)]
  rw [natToCharsGo_fuel n (n / 10 + 1) (n / 10) (by omega) (by omega)]

theorem natToChars_small (n : Nat) (h : n < 10) : natToChars n = [Char.ofNat (48 + n)] := by
  simp only [natToChars]
  rw [natToCharsGo, if_pos h]

theorem natToChars_length4 (y : Nat) (h1 : 1000 ≤ y) (h2 : y ≤ 9999) :
    (natToChars y).length = 4 := by
  rw [natToChars_step y (by omega), natToChars_step (y / 10) (by omega),
    natToChars_step (y / 10 / 10) (by omega), natToChars_small (y / 10 / 10 / 10) (by omega)]
  simp

theorem takeWhile_all (p : Char → Bool) (l : List Char) (h : ∀ c ∈ l, p c = true) :
    l.takeWhile p = l := by
  induction l with
  | nil => rfl
  | cons c cs ih =>
    have h1 := h c (List.mem_cons_self c cs)
    have h2 : cs.takeWhile p = cs := ih (fun x hx => h x (List.mem_cons_of_mem c hx))
    simp [List.takeWhile, h1, h2]

theorem dropWhile_all_false (p : Char → Bool) (l : List Char)
    (h : ∀ c ∈ l, p c = false) : l.dropWhile p = l := by
  cases l with
  | nil => rfl
  | cons c cs => simp [List.dropWhile, h c (List.mem_cons_self c cs)]

theorem trimChars_id (l : List Char) (h : ∀ c ∈ l, isTrimmedSpace c = false) :
    trimChars l = l := by
  rw [trimChars, dropWhile_all_false _ l h,
    dropWhile_all_false _ l.reverse (fun c hc => h c (List.mem_reverse.mp hc)),
    List.reverse_reverse]

theorem splitOnDot_no_dot (a : List Char) (ha : '.' ∉ a) : splitOnDot a = [a] := by
  induction a with
  | nil => rfl
  | cons c cs ih =>
    have h1 : c ≠ '.' := by rintro rfl; exact ha (List.mem_cons_self _ _)
    have h2 : '.' ∉ cs := fun h => ha (List.mem_cons_of_mem c h)
    rw [splitOnDot, if_neg h1, ih h2]

theorem splitOnDot_append (a r : List Char) (ha : '.' ∉ a) :
    splitOnDot (a ++ '.' :: r) = a :: splitOnDot r := by
  induction a with
  | nil =>
    simp only [List.nil_append]
    rw [splitOnDot, if_pos rfl]
  | cons c cs ih =>
    have h1 : c ≠ '.' := by rintro rfl; exact ha (List.mem_cons_self _ _)
    have h2 : '.' ∉ cs := fun h => ha (List.mem_cons_of_mem c h)
    rw [List.cons_append, splitOnDot, if_neg h1, ih h2]

theorem parseDigits_digits (l : List Char) (hne : l ≠ []) (hd : ∀ c ∈ l, c ∈ digitChars) :
    parseDigits l = some (digitsValFrom 0 l) := by
  simp only [parseDigits]
  rw [takeWhile_all Char.isDigit l (fun c hc => digit_isDigit c (hd c hc)), if_neg hne]
  rfl

theorem jsParseInt_digits (l : List Char) (hne : l ≠ []) (hd : ∀ c ∈ l, c ∈ digitChars) :
    jsParseInt l = some ((digitsValFrom 0 l : Nat) : Int) := by
  obtain ⟨c, rest, rfl⟩ : ∃ c rest, l = c :: rest := by
    cases l with
    | nil => exact absurd rfl hne
    | cons c r => exact ⟨c, r, rfl⟩
  have hc := hd c (List.mem_cons_self c rest)
  have hdw : (c :: rest).dropWhile isTrimmedSpace = c :: rest := by
    simp [List.dropWhile, digit_not_space c hc]
  simp only [jsParseInt, hdw]
  rw [if_neg (digit_ne_minus c hc), if_neg (digit_ne_plus c hc),
    parseDigits_digits (c :: rest) (List.cons_ne_nil c rest) hd]
  rfl

theorem pad2_mem (n : Int) (c : Char) (hc : c ∈ pad2 n) : c ∈ digitChars := by
  rw [pad2] at hc
  split at hc
  · rcases List.mem_cons.mp hc with rfl | h
    · decide
    · exact natToChars_mem _ c h
  · exact natToChars_mem _ c hc

theorem pad2_ne_nil (n : Int) : pad2 n ≠ [] := by
  rw [pad2]
  split
  · exact List.cons_ne_nil _ _
  · exact natToChars_ne_nil _

theorem pad2_val (n : Int) : digitsValFrom 0 (pad2 n) = n.toNat := by
  rw [pad2]
  split
  · rw [digitsValFrom_cons]
    have h0 : (0 : Nat) * 10 + ('0'.toNat - 48) = 0 := by decide
    rw [h0, natToChars_val]
  · exact natToChars_val _

theorem jsMakeDate_canonical (d m y : Nat) (hm1 : 1 ≤ m) (hm2 : m ≤ 12)
    (hy1 : 1000 ≤ y) (hd1 : 1 ≤ d)
    (hd2 : (d : Int) ≤ daysInMonth (y : Int) ((m : Int) - 1)) :
    jsMakeDate (y : Int) ((m : Int) - 1) (d : Int) =
      ⟨(y : Int), (m : Int) - 1, (d : Int)⟩ := by
  refine jsMakeDate_of_valid ⟨(y : Int), (m : Int) - 1, (d : Int)⟩ ⟨?_, ?_, ?_, ?_⟩ ?_
  · show (0 : Int) ≤ (m : Int) - 1
    omega
  · show (m : Int) - 1 ≤ 11
    omega
  · show (1 : Int) ≤ (d : Int)
    omega
  · exact hd2
  · show ¬(0 ≤ (y : Int) ∧ (y : Int) ≤ 99)
    omega

theorem formatDate_canonical (d m y : Nat) (hy1 : 1000 ≤ y) (hy2 : y ≤ 9999) :
    formatDate ⟨(y : Int), (m : Int) - 1, (d : Int)⟩ = canonicalDateString d m y := by
  rw [formatDate]
  dsimp only
  have h1 : ((m : Int) - 1) + 1 = (m : Int) := by ring
  have h2 : ((y : Int)).toNat = y := by omega
  rw [h1, yearChars, if_neg (by omega : ¬((y : Int) < 0)), h2, canonicalDateString,
    natToChars_length4 y hy1 hy2]
  simp

/-- C9 (amended): for the canonical `DD.MM.YYYY` rendering of a real
calendar date whose year lies in 1000–9999, parsing the string and
reformatting the resulting date yields the identical string. -/
theorem claim9_roundtrip (d m y : Nat) (hm1 : 1 ≤ m) (hm2 : m ≤ 12)
    (hy1 : 1000 ≤ y) (hy2 : y ≤ 9999) (hd1 : 1 ≤ d)
    (hd2 : (d : Int) ≤ daysInMonth (y : Int) ((m : Int) - 1)) :
    (parseEstonianDate (canonicalDateString d m y)).map formatDate =
      some (canonicalDateString d m y) := by
  have hYmem : ∀ c ∈ List.replicate (4 - (natToChars y).length) '0' ++ natToChars y,
      c ∈ digitChars := by
    intro c hc
    rcases List.mem_append.mp hc with h | h
    · rw [List.eq_of_mem_replicate h]; decide
    · exact natToChars_mem y c h
  have hYne : List.replicate (4 - (natToChars y).length) '0' ++ natToChars y ≠ [] := by
    intro h
    exact natToChars_ne_nil y (List.append_eq_nil.mp h).2
  have hcanon : ∀ c ∈ canonicalDateString d m y, c ∈ digitChars ∨ c = '.' := by
    intro c hc
    rw [canonicalDateString] at hc
    rcases List.mem_append.mp hc with h | h
    · rcases List.mem_append.mp h with h | h
      · exact Or.inl (pad2_mem _ c h)
      · rcases List.mem_cons.mp h with rfl | h
        · exact Or.inr rfl
        · exact Or.inl (pad2_mem _ c h)
    · rcases List.mem_cons.mp h with rfl | h
      · exact Or.inr rfl
      · exact Or.inl (hYmem c h)
  have hall : ∀ c ∈ canonicalDateString d m y, isTrimmedSpace c = false := by
    intro c hc
    rcases hcanon c hc with h | rfl
    · exact digit_not_space c h
    · decide
  have hne : canonicalDateString d m y ≠ [] := by
    rw [canonicalDateString]
    intro h
    exact List.cons_ne_nil _ _ (List.append_eq_nil.mp h).2
  have hndD : '.' ∉ pad2 (d : Int) := fun h => absurd (pad2_mem _ '.' h) (by decide)
  have hndM : '.' ∉ pad2 (m : Int) := fun h => absurd (pad2_mem _ '.' h) (by decide)
  have hndY : '.' ∉ List.replicate (4 - (natToChars y).length) '0' ++ natToChars y :=
    fun h => absurd (hYmem '.' h) (by decide)
  have hsplit : splitOnDot (canonicalDateString d m y) =
      [pad2 (d : Int), pad2 (m : Int),
        List.replicate (4 - (natToChars y).length) '0' ++ natToChars y] := by
    rw [canonicalDateString, List.append_assoc, List.cons_append,
      splitOnDot_append _ _ hndD, splitOnDot_append _ _ hndM, splitOnDot_no_dot _ hndY]
  have hD : jsParseInt (pad2 (d : Int)) = some (d : Int) := by
    rw [jsParseInt_digits _ (pad2_ne_nil _) (pad2_mem _), pad2_val]
    congr 1
  have hM : jsParseInt (pad2 (m : Int)) = some (m : Int) := by
    rw [jsParseInt_digits _ (pad2_ne_nil _) (pad2_mem _), pad2_val]
    congr 1
  have hY2 : jsParseInt (List.replicate (4 - (natToChars y).length) '0' ++ natToChars y) =
      some (y : Int) := by
    rw [jsParseInt_digits _ hYne hYmem, digitsValFrom_append, digitsValFrom_replicate_zero,
      natToChars_val]
  have hmk := jsMakeDate_canonical d m y hm1 hm2 hy1 hd1 hd2
  rw [parseEstonianDate, if_neg hne, trimChars_id _ hall, hsplit]
  dsimp only
  rw [hD, hM, hY2]
  dsimp only
  rw [hmk]
  rw [if_pos ⟨rfl, rfl, rfl⟩, Option.map_some', formatDate_canonical d m y hy1 hy2]

/-- C9, counterexample: `"01.01.0050"` is the canonical rendering of the
real calendar date 0050-01-01, but parsing it fails: `new Date(50, 0, 1)`
is 1950-01-01 under the two-digit-year rule, so the year check in
`parseEstonianDate` rejects the string and returns `null`; the round trip
does not even produce a date. -/
theorem claim9_counterexample :
    canonicalDateString 1 1 50 = ("01.01.0050".toList) ∧
    parseEstonianDate ("01.01.0050".toList) = none := by
  decide

theorem claim9_witness :
    (parseEstonianDate (canonicalDateString 23 1 2023)).map formatDate =
      some (canonicalDateString 23 1 2023) :=
  claim9_roundtrip 23 1 2023 (by decide) (by decide) (by decide) (by decide) (by decide)
    (by decide)

end ChartApp
